import Mathlib

/-!
# Verification of the three.path frame builder and cross-section emitters

This development shallowly embeds the core of the `three.path` library:

* `PathPoint` / `PathPointList` — the path-frame builder (`PathPointList.set`,
  `_start`, `_corner`, `_sharpCorner`, `_end`, `distance`);
* the three cross-section vertex-data generators: the flat ribbon
  (`generatePathVertexData`), the circular tube (`generateTubeVertexData$1`,
  here `generateTubeVertexData1`), and the two rectangular-tube variants
  (the 8-vertex `generateTubeVertexData` of the bundled build, here
  `generateTubeVertexDataRect`, and the 5-vertex variant of
  `src/PathRectangleGeometry.js`, here `generateTubeVertexDataRectA`);
* the `update` methods' visible draw-range bookkeeping.

The JavaScript source computes with IEEE doubles and the `Math` library.  The
embedding is polymorphic over a linear ordered field `K` together with a record
`ScalarOps K` supplying the analytic routines the code calls
(`Math.sqrt/sin/cos/acos`, `Math.PI`, `Number.EPSILON`, `Number.MAX_VALUE`).
Exact rational instantiation (`ratOps`) is used for executable witnesses; the
real-number instantiation (`realOps`) together with the `LawfulScalarOps` laws
is used for the analytic theorems.  All other arithmetic is exact; JavaScript
truthiness of numeric option defaults (`x || d`) is modelled by `jsOrK`.
Fallible behaviour (reading `undefined` array slots and then dereferencing,
which throws a TypeError in JavaScript) is modelled by the `crash` constructor
of `EmitResult`.
-/

namespace ThreePath

/- Batteries seals the rational-number arithmetic behind `@[irreducible]`;
re-opening it locally lets `decide` evaluate the embedding on concrete
rational inputs. -/
attribute [local semireducible] Rat.add Rat.sub Rat.mul Rat.inv

/-- The analytic primitives used by the JavaScript source: `Math.sqrt`,
`Math.sin`, `Math.cos`, `Math.acos`, `Math.PI`, `Number.EPSILON` and
`Number.MAX_VALUE`.  The embedding is parameterized by them. -/
structure ScalarOps (K : Type) where
  sqrt : K → K
  sin : K → K
  cos : K → K
  arccos : K → K
  pi : K
  epsilon : K
  maxValue : K

variable {K : Type} [LinearOrderedField K]

/-- JavaScript `a || d` for a possibly-absent numeric option: `undefined`
and `0` (falsy) select the default. -/
def jsOrK (o : Option K) (d : K) : K :=
  match o with
  | none => d
  | some v => if v = 0 then d else v

/-- JavaScript `a || d` for a possibly-absent natural-number option. -/
def jsOrNat (o : Option ℕ) (d : ℕ) : ℕ :=
  match o with
  | none => d
  | some v => if v = 0 then d else v

/-- three.js `Vector3`. -/
structure Vec3 (K : Type) where
  x : K
  y : K
  z : K
deriving DecidableEq

namespace Vec3

/-- The zero vector (`new Vector3()`). -/
def zero : Vec3 K := ⟨0, 0, 0⟩

instance : Inhabited (Vec3 K) := ⟨⟨0, 0, 0⟩⟩

/-- `Vector3.add` (componentwise sum). -/
def addV (a b : Vec3 K) : Vec3 K := ⟨a.x + b.x, a.y + b.y, a.z + b.z⟩

/-- `Vector3.subVectors(a, b)` = `a - b`. -/
def subV (a b : Vec3 K) : Vec3 K := ⟨a.x - b.x, a.y - b.y, a.z - b.z⟩

/-- `Vector3.multiplyScalar`. -/
def multiplyScalar (a : Vec3 K) (s : K) : Vec3 K := ⟨a.x * s, a.y * s, a.z * s⟩

/-- `Vector3.negate`. -/
def negateV (a : Vec3 K) : Vec3 K := ⟨-a.x, -a.y, -a.z⟩

/-- `Vector3.divideScalar` (three.js multiplies by `1 / s`). -/
def divideScalar (a : Vec3 K) (s : K) : Vec3 K := a.multiplyScalar (1 / s)

/-- `Vector3.dot`. -/
def dot (a b : Vec3 K) : K := a.x * b.x + a.y * b.y + a.z * b.z

/-- `Vector3.lengthSq`. -/
def lengthSq (a : Vec3 K) : K := a.x * a.x + a.y * a.y + a.z * a.z

/-- `Vector3.length` = `Math.sqrt(lengthSq)`. -/
def length (ops : ScalarOps K) (a : Vec3 K) : K := ops.sqrt a.lengthSq

/-- `Vector3.crossVectors(a, b)`. -/
def crossVectors (a b : Vec3 K) : Vec3 K :=
  ⟨a.y * b.z - a.z * b.y, a.z * b.x - a.x * b.z, a.x * b.y - a.y * b.x⟩

/-- `Vector3.normalize()` = `divideScalar(length || 1)`: three.js guards a
zero length with `1`, so the zero vector normalizes to itself. -/
def normalize (ops : ScalarOps K) (a : Vec3 K) : Vec3 K :=
  a.divideScalar (if length ops a = 0 then 1 else length ops a)

/-- `Vector3.setLength(l)` = `normalize().multiplyScalar(l)`. -/
def setLength (ops : ScalarOps K) (a : Vec3 K) (l : K) : Vec3 K :=
  (a.normalize ops).multiplyScalar l

/-- `Vector3.lerpVectors(a, b, t)` (componentwise `a + (b - a) * t`). -/
def lerpVectors (a b : Vec3 K) (t : K) : Vec3 K :=
  ⟨a.x + (b.x - a.x) * t, a.y + (b.y - a.y) * t, a.z + (b.z - a.z) * t⟩

/-- `Vector3.equals` (componentwise strict equality). -/
def equalsV (a b : Vec3 K) : Bool :=
  decide (a.x = b.x) && decide (a.y = b.y) && decide (a.z = b.z)

/-- Application of the rotation matrix `Matrix4.makeRotationAxis(axis, θ)` to a
vector, with `c = cos θ`, `s = sin θ`, `t = 1 - c`, given here with `c` and `s`
as explicit arguments.  `makeRotationAxis` has no translation part and an
identity last row, so `applyMatrix4` (which divides by `w = 1`) reduces to the
upper-left 3×3 product transcribed below. -/
def rotApplyCS (axis : Vec3 K) (c s : K) (v : Vec3 K) : Vec3 K :=
  ⟨((1 - c) * axis.x * axis.x + c) * v.x
     + ((1 - c) * axis.x * axis.y - s * axis.z) * v.y
     + ((1 - c) * axis.x * axis.z + s * axis.y) * v.z,
   ((1 - c) * axis.x * axis.y + s * axis.z) * v.x
     + ((1 - c) * axis.y * axis.y + c) * v.y
     + ((1 - c) * axis.y * axis.z - s * axis.x) * v.z,
   ((1 - c) * axis.x * axis.z - s * axis.y) * v.x
     + ((1 - c) * axis.y * axis.z + s * axis.x) * v.y
     + ((1 - c) * axis.z * axis.z + c) * v.z⟩

/-- `v.applyMatrix4(helpMat4.makeRotationAxis(axis, theta))`. -/
def applyRotationAxis (ops : ScalarOps K) (v axis : Vec3 K) (theta : K) : Vec3 K :=
  rotApplyCS axis (ops.cos theta) (ops.sin theta) v

/-- `Vector3.applyAxisAngle(axis, angle)`: three.js builds the quaternion
`(axis * sin(angle/2), cos(angle/2))` and applies it with
`t = 2 q×v; v + w t + q×t`. -/
def applyAxisAngle (ops : ScalarOps K) (v axis : Vec3 K) (angle : K) : Vec3 K :=
  let s : K := ops.sin (angle / 2)
  let qx : K := axis.x * s
  let qy : K := axis.y * s
  let qz : K := axis.z * s
  let qw : K := ops.cos (angle / 2)
  let tx : K := 2 * (qy * v.z - qz * v.y)
  let ty : K := 2 * (qz * v.x - qx * v.z)
  let tz : K := 2 * (qx * v.y - qy * v.x)
  ⟨v.x + qw * tx + qy * tz - qz * ty,
   v.y + qw * ty + qz * tx - qx * tz,
   v.z + qw * tz + qx * ty - qy * tx⟩

end Vec3

/-- `PathPoint`: one frame sample.  Field defaults are those of the
JavaScript constructor (`new PathPoint()`). -/
structure PathPoint (K : Type) where
  pos : Vec3 K
  dir : Vec3 K
  right : Vec3 K
  up : Vec3 K
  dist : K
  widthScale : K
  sharp : Bool
deriving DecidableEq

namespace PathPoint

/-- `new PathPoint()`. -/
def new : PathPoint K :=
  { pos := Vec3.zero, dir := Vec3.zero, right := Vec3.zero, up := Vec3.zero,
    dist := 0, widthScale := 1, sharp := false }

instance : Inhabited (PathPoint K) := ⟨new⟩

/-- `PathPoint.lerpPathPoints(p1, p2, alpha)` applied to `self`; note that the
`sharp` flag is not interpolated and keeps `self`'s value. -/
def lerpPathPoints (self p1 p2 : PathPoint K) (alpha : K) : PathPoint K :=
  { self with
    pos := Vec3.lerpVectors p1.pos p2.pos alpha,
    dir := Vec3.lerpVectors p1.dir p2.dir alpha,
    up := Vec3.lerpVectors p1.up p2.up alpha,
    right := Vec3.lerpVectors p1.right p2.right alpha,
    dist := (p2.dist - p1.dist) * alpha + p1.dist,
    widthScale := (p2.widthScale - p1.widthScale) * alpha + p1.widthScale }

/-- `PathPoint.copy(source)` copies everything except the `sharp` flag. -/
def copyFrom (self source : PathPoint K) : PathPoint K :=
  { self with
    pos := source.pos, dir := source.dir, up := source.up,
    right := source.right, dist := source.dist, widthScale := source.widthScale }

end PathPoint

/-- The last sample of a builder state (the state is never empty after
`_start`, so the default is unreachable in the modelled executions). -/
def lastD (st : List (PathPoint K)) : PathPoint K := st.getLastD PathPoint.new

/-- The initial-normal selection of `PathPointList._start` when no forced up
vector is given: the world axis whose absolute projection onto the tangent is
smallest, chosen by the `min = Number.MAX_VALUE` if-chain of the source
(starting from the fresh point's `up = (0,0,0)`). -/
def autoUp (maxValue : K) (d : Vec3 K) : Vec3 K :=
  let tx : K := |d.x|
  let ty : K := |d.y|
  let tz : K := |d.z|
  let s1 : K × Vec3 K := if tx < maxValue then (tx, ⟨1, 0, 0⟩) else (maxValue, Vec3.zero)
  let s2 : K × Vec3 K := if ty < s1.1 then (ty, ⟨0, 1, 0⟩) else s1
  if tz < s2.1 then ⟨0, 0, 1⟩ else s2.2

/-- `PathPointList._start(current, next, up)`: the first frame sample.  Note
the source computes `right` and `up` with the still-unnormalized tangent and
normalizes `dir` last. -/
def startPoint (ops : ScalarOps K) (current next : Vec3 K) (upOpt : Option (Vec3 K)) :
    PathPoint K :=
  let dir0 : Vec3 K := Vec3.subV next current
  let up0 : Vec3 K :=
    match upOpt with
    | some u => u
    | none => autoUp ops.maxValue dir0
  let rightv : Vec3 K := (Vec3.crossVectors dir0 up0).normalize ops
  let up1 : Vec3 K := (Vec3.crossVectors rightv dir0).normalize ops
  { pos := current, dir := dir0.normalize ops, right := rightv, up := up1,
    dist := 0, widthScale := 1, sharp := false }

/-- The rotation-minimizing up-transport shared by `_end` and `_sharpCorner`:
if the cross product of the previous and new tangents has length above
`Number.EPSILON`, rotate the previous up about it by
`acos(clamp(prevDir · newDir, -1, 1))`; otherwise keep it. -/
def transportUp (ops : ScalarOps K) (prevDir newDir upPrev : Vec3 K) : Vec3 K :=
  let vec : Vec3 K := Vec3.crossVectors prevDir newDir
  if ops.epsilon < vec.length ops then
    let axis : Vec3 K := vec.normalize ops
    let theta : K := ops.arccos (min (max (Vec3.dot prevDir newDir) (-1)) 1)
    upPrev.applyRotationAxis ops axis theta
  else upPrev

/-- `PathPointList._end(current)` as a function of the previous sample. -/
def endPoint (ops : ScalarOps K) (lastPoint : PathPoint K) (current : Vec3 K) :
    PathPoint K :=
  let dirRaw : Vec3 K := Vec3.subV current lastPoint.pos
  let dist : K := dirRaw.length ops
  let dir : Vec3 K := dirRaw.normalize ops
  let up : Vec3 K := transportUp ops lastPoint.dir dir lastPoint.up
  let rightv : Vec3 K := (Vec3.crossVectors dir up).normalize ops
  { pos := current, dir := dir, up := up, right := rightv,
    dist := lastPoint.dist + dist, widthScale := 1, sharp := false }

/-- The width-scale factor of `_sharpCorner`:
`Math.min(1 / Math.sqrt((1 + cos) / 2), 1.415) || 1`.  In JavaScript a
negative radicand gives `NaN` (falsy, hence the `|| 1` fallback) and a zero
radicand gives `1 / 0 = Infinity`, whose `min` with `1.415` is `1.415`; both
cases are transcribed explicitly since `K` has neither `NaN` nor infinities. -/
def cornerWidthScale (ops : ScalarOps K) (cosv : K) : K :=
  let q : K := (1 + cosv) / 2
  if q < 0 then 1
  else if ops.sqrt q = 0 then 1415 / 1000
  else min (1 / ops.sqrt q) (1415 / 1000)

/-- `PathPointList._sharpCorner(current, next, up, dirType, sharp)` as a
function of the previous sample.  `dirType`: 0 uses the bisecting direction,
1 the incoming direction, 2 the outgoing direction. -/
def sharpCornerPoint (ops : ScalarOps K) (lastPoint : PathPoint K)
    (current next : Vec3 K) (upOpt : Option (Vec3 K)) (dirType : ℕ) (sharp : Bool) :
    PathPoint K :=
  let lastDirRaw : Vec3 K := Vec3.subV current lastPoint.pos
  let nextDirRaw : Vec3 K := Vec3.subV next current
  let lastDirLength : K := lastDirRaw.length ops
  let lastDir : Vec3 K := lastDirRaw.normalize ops
  let nextDir : Vec3 K := nextDirRaw.normalize ops
  let dir : Vec3 K :=
    if dirType = 1 then lastDir
    else if dirType = 2 then nextDir
    else (Vec3.addV lastDir nextDir).normalize ops
  let upright : Vec3 K × Vec3 K :=
    match upOpt with
    | some u =>
      let rightv : Vec3 K :=
        if Vec3.dot dir u = 1 then (Vec3.crossVectors nextDir u).normalize ops
        else (Vec3.crossVectors dir u).normalize ops
      ((Vec3.crossVectors rightv dir).normalize ops, rightv)
    | none =>
      let up : Vec3 K := transportUp ops lastPoint.dir dir lastPoint.up
      (up, (Vec3.crossVectors dir up).normalize ops)
  let cosv : K := Vec3.dot lastDir nextDir
  { pos := current, dir := dir, up := upright.1, right := upright.2,
    dist := lastPoint.dist + lastDirLength,
    widthScale := cornerWidthScale ops cosv,
    sharp := decide ((1 : K) / 20 < |cosv - 1|) && sharp }

/-- The control points of `_getCornerBezierCurve(last, current, next,
cornerRadius, firstCorner)`. -/
def cornerBezier (ops : ScalarOps K) (last current next : Vec3 K)
    (cornerRadius : K) (firstCorner : Bool) : Vec3 K × Vec3 K × Vec3 K :=
  let lastDirRaw : Vec3 K := Vec3.subV current last
  let nextDirRaw : Vec3 K := Vec3.subV next current
  let lastDirLength : K := lastDirRaw.length ops
  let nextDirLength : K := nextDirRaw.length ops
  let lastDir : Vec3 K := lastDirRaw.normalize ops
  let nextDir : Vec3 K := nextDirRaw.normalize ops
  let v0Dist : K :=
    min ((if firstCorner then lastDirLength / 2 else lastDirLength) * (999999 / 1000000))
      cornerRadius
  let v2Dist : K := min (nextDirLength / 2 * (999999 / 1000000)) cornerRadius
  (Vec3.subV current (lastDir.multiplyScalar v0Dist), current,
   Vec3.addV current (nextDir.multiplyScalar v2Dist))

/-- `QuadraticBezierCurve3.getPoint(t)`. -/
def bezierPoint (v0 v1 v2 : Vec3 K) (t : K) : Vec3 K :=
  ⟨(1 - t) * (1 - t) * v0.x + 2 * (1 - t) * t * v1.x + t * t * v2.x,
   (1 - t) * (1 - t) * v0.y + 2 * (1 - t) * t * v1.y + t * t * v2.y,
   (1 - t) * (1 - t) * v0.z + 2 * (1 - t) * t * v1.z + t * t * v2.z⟩

/-- `Curve.getPoints(divisions)`: the `divisions + 1` uniform samples. -/
def bezierGetPoints (v0 v1 v2 : Vec3 K) (divisions : ℕ) : List (Vec3 K) :=
  (List.range (divisions + 1)).map fun d => bezierPoint v0 v1 v2 ((d : K) / (divisions : K))

/-- One `_sharpCorner` invocation as a step descriptor:
`(current, next, dirType, sharp)`. -/
abbrev SharpStep (K : Type) : Type := Vec3 K × Vec3 K × ℕ × Bool

/-- Append the sample of one `_sharpCorner` call to the builder state. -/
def applyStep (ops : ScalarOps K) (upOpt : Option (Vec3 K))
    (st : List (PathPoint K)) (s : SharpStep K) : List (PathPoint K) :=
  st ++ [sharpCornerPoint ops (lastD st) s.1 s.2.1 upOpt s.2.2.1 s.2.2.2]

/-- Apply a list of `_sharpCorner` steps in order. -/
def applySteps (ops : ScalarOps K) (upOpt : Option (Vec3 K))
    (st : List (PathPoint K)) (steps : List (SharpStep K)) : List (PathPoint K) :=
  steps.foldl (applyStep ops upOpt) st

/-- The `_sharpCorner` invocations performed by
`PathPointList._corner(current, next, cornerRadius, cornerSplit, up)`:
with rounding enabled, one call per consecutive pair of Bézier samples (the
first with `dirType = 1`, the rest with `dirType = 0`) plus a final
`dirType = 2` call if the last sample missed `next`; otherwise a single hard
call with `sharp` eligibility. -/
def cornerSteps (ops : ScalarOps K) (cornerRadius : K) (cornerSplit : ℕ)
    (lastPos : Vec3 K) (firstCorner : Bool) (current next : Vec3 K) :
    List (SharpStep K) :=
  if 0 < cornerRadius ∧ 0 < cornerSplit then
    let cb : Vec3 K × Vec3 K × Vec3 K :=
      cornerBezier ops lastPos current next cornerRadius firstCorner
    let sp : List (Vec3 K) := bezierGetPoints cb.1 cb.2.1 cb.2.2 cornerSplit
    let base : List (SharpStep K) :=
      (List.zip sp sp.tail).enum.map fun fs =>
        ((fs.2.1, fs.2.2, if fs.1 = 0 then 1 else 0, false) : SharpStep K)
    base ++
      (if !(Vec3.equalsV (sp.getD cornerSplit Vec3.zero) next) then
        [(((sp.getD cornerSplit Vec3.zero), next, 2, false) : SharpStep K)]
      else [])
  else [(((current, next, 0, true)) : SharpStep K)]

/-- `PathPointList._corner` applied to the builder state. -/
def cornerAppend (ops : ScalarOps K) (cornerRadius : K) (cornerSplit : ℕ)
    (upOpt : Option (Vec3 K)) (st : List (PathPoint K)) (current next : Vec3 K) :
    List (PathPoint K) :=
  applySteps ops upOpt st
    (cornerSteps ops cornerRadius cornerSplit (lastD st).pos
      (decide (st.length = 1)) current next)

/-- The closed-path fixup of `PathPointList.set`: copy the final frame back
onto the stored first sample, preserving its `dist` (and, since
`PathPoint.copy` skips it, its `sharp` flag). -/
def closeFix (st : List (PathPoint K)) : List (PathPoint K) :=
  match st with
  | [] => []
  | p0 :: rest =>
    { PathPoint.copyFrom p0 (lastD (p0 :: rest)) with dist := p0.dist } :: rest

/-- The loop of `PathPointList.set` over the indices `1 .. l-1`.  `secondPt`
is `points[1]`, `cur` is `points[i]`, `rem` the points after index `i`. -/
def buildRest (ops : ScalarOps K) (cornerRadius : K) (cornerSplit : ℕ)
    (upOpt : Option (Vec3 K)) (close : Bool) (secondPt : Vec3 K) :
    List (Vec3 K) → Vec3 K → List (PathPoint K) → List (PathPoint K)
  | [], cur, st =>
    if close then closeFix (cornerAppend ops cornerRadius cornerSplit upOpt st cur secondPt)
    else st ++ [endPoint ops (lastD st) cur]
  | nxt :: rem, cur, st =>
    buildRest ops cornerRadius cornerSplit upOpt close secondPt rem nxt
      (cornerAppend ops cornerRadius cornerSplit upOpt st cur nxt)

/-- `PathPointList.set(points, cornerRadius, cornerSplit, up, close)`: the
produced sample list (the `array[0..count-1]` slice of a fresh list).  Fewer
than two points produce the empty sequence (the source warns and returns). -/
def setPath (ops : ScalarOps K) (points0 : List (Vec3 K)) (cornerRadius : K)
    (cornerSplit : ℕ) (upOpt : Option (Vec3 K)) (close : Bool) :
    List (PathPoint K) :=
  if points0.length < 2 then []
  else
    let points : List (Vec3 K) :=
      if close && !(Vec3.equalsV (points0.headD Vec3.zero) (points0.getLastD Vec3.zero)) then
        points0 ++ [points0.headD Vec3.zero]
      else points0
    match points with
    | p0 :: p1 :: rem =>
      buildRest ops cornerRadius cornerSplit upOpt close p1 rem p1
        [startPoint ops p0 p1 upOpt]
    | _ => []

/-- `PathPointList.distance()` on a produced sample list. -/
def distanceOf (st : List (PathPoint K)) : K :=
  if st.isEmpty then 0 else (lastD st).dist

/-- The `PathPointList` object as the emitters see it: the backing array and
the valid-sample count. -/
structure PathPointList (K : Type) where
  array : List (PathPoint K)
  count : ℕ
deriving DecidableEq

/-- A `PathPointList` freshly produced by `set`. -/
def PathPointList.ofList (l : List (PathPoint K)) : PathPointList K := ⟨l, l.length⟩

/-- `PathPointList.distance()`: the last valid sample's `dist`, or 0 for an
empty list. -/
def PathPointList.distance (pl : PathPointList K) : K :=
  if 0 < pl.count then ((pl.array.get? (pl.count - 1)).getD PathPoint.new).dist else 0

/-- The `'left' / 'right' / 'both'` side option of the ribbon emitter. -/
inductive Side where
  | left
  | right
  | both
deriving DecidableEq

/-- The `options` dictionary passed to the generators (absent fields are
`undefined`). -/
structure JsOptions (K : Type) where
  width : Option K
  progress : Option K
  arrow : Option Bool
  side : Option Side
  radius : Option K
  radialSegments : Option ℕ
  startRad : Option K
  height : Option K
deriving DecidableEq

/-- The `options` object with every field `undefined`. -/
def JsOptions.empty : JsOptions K := ⟨none, none, none, none, none, none, none, none⟩

/-- The mutable arrays and counters a generator accumulates
(`position`, `normal`, `uv`, `uv2`, `indices`, `verticesCount`, `count`). -/
structure EmitState (K : Type) where
  position : List K
  normal : List K
  uv : List K
  uv2 : List K
  indices : List ℕ
  verticesCount : ℕ
  count : ℕ
deriving DecidableEq

/-- The empty accumulator. -/
def EmitState.init : EmitState K := ⟨[], [], [], [], [], 0, 0⟩

/-- Result of a generator call: `null`, a vertex-data object, or a thrown
TypeError from dereferencing an `undefined` array slot (`crash`). -/
inductive EmitResult (K : Type) where
  | crash
  | null
  | data (vd : EmitState K)
deriving DecidableEq

/-- The truncation sample: `lastPoint = new PathPoint();
lastPoint.lerpPathPoints(prevPoint, pathPoint, alpha)` with
`alpha = (progressDistance - prevPoint.dist) / (pathPoint.dist - prevPoint.dist)`. -/
def truncLerp (pd : K) (prevPoint pathPoint : PathPoint K) : PathPoint K :=
  PathPoint.lerpPathPoints PathPoint.new prevPoint pathPoint
    ((pd - prevPoint.dist) / (pathPoint.dist - prevPoint.dist))

/-- The progressive-truncation loop shared verbatim by all four generators
(`for i in 0..count`: emit samples while `dist ≤ progressDistance`; at the
first sample with `dist > progressDistance`, lerp against the previous sample
and stop).  Returns the list of samples fed to `addVertices` together with the
synthesized truncation sample if one was made (`lastPoint`); `none` models the
TypeError thrown when the loop reads `array[i]` past the backing array or
`array[-1]` at `i = 0`. -/
def truncGo (pd : K) : List (PathPoint K) → ℕ → Option (PathPoint K) →
    Option (List (PathPoint K) × Option (PathPoint K))
  | _, 0, _ => some ([], none)
  | [], _ + 1, _ => none
  | p :: rest, n + 1, prevOpt =>
    if pd < p.dist then
      match prevOpt with
      | none => none
      | some prev => some ([truncLerp pd prev p], some (truncLerp pd prev p))
    else
      (truncGo pd rest n (some p)).map fun pr => (p :: pr.1, pr.2)

/-- `Vector3.fromArray(array, offset)`. -/
def vecAt (l : List K) (i : ℕ) : Vec3 K := ⟨l.getD i 0, l.getD (i + 1) 0, l.getD (i + 2) 0⟩

/-- The per-call constants of `generatePathVertexData` that its inner
`addVertices` / `addStart` closures capture. -/
structure RibbonCtx (K : Type) where
  side : Side
  width : K
  halfWidth : K
  sideWidth : K
  totalDistance : K
  sharpUvOffset : K
  sharpUvOffset2 : K
  generateUv2 : Bool

/-- The `addVertices` closure of `generatePathVertexData`: a plain two-vertex
ring, or the six-vertex miter fan at a sharp, non-first sample. -/
def ribbonAddVertices (ops : ScalarOps K) (ctx : RibbonCtx K)
    (st : EmitState K) (pathPoint : PathPoint K) : EmitState K :=
  let first : Bool := decide (st.position.length = 0)
  let sharpCorner : Bool := pathPoint.sharp && !first
  let uvDist : K := pathPoint.dist / ctx.sideWidth
  let uvDist2 : K := pathPoint.dist / ctx.totalDistance
  let dir : Vec3 K := pathPoint.dir
  let up : Vec3 K := pathPoint.up
  let rightE : Vec3 K :=
    Vec3.addV
      (if ctx.side ≠ Side.left then
        pathPoint.right.multiplyScalar (ctx.halfWidth * pathPoint.widthScale)
      else Vec3.zero)
      pathPoint.pos
  let leftE : Vec3 K :=
    Vec3.addV
      (if ctx.side ≠ Side.right then
        pathPoint.right.multiplyScalar (-ctx.halfWidth * pathPoint.widthScale)
      else Vec3.zero)
      pathPoint.pos
  if sharpCorner then
    let leftOffset : Vec3 K := Vec3.subV (vecAt st.position (st.position.length - 6)) leftE
    let rightOffset : Vec3 K := Vec3.subV (vecAt st.position (st.position.length - 3)) rightE
    let leftDist : K := leftOffset.length ops
    let rightDist : K := rightOffset.length ops
    let sideOffset : K := leftDist - rightDist
    let longerOffset : Vec3 K := if 0 < sideOffset then leftOffset else rightOffset
    let longEdge : Vec3 K := if 0 < sideOffset then leftE else rightE
    let tempPoint1 : Vec3 K := Vec3.addV (longerOffset.setLength ops |sideOffset|) longEdge
    let cosT : K := Vec3.dot ((Vec3.subV longEdge tempPoint1).normalize ops) dir
    let lenT : K := (Vec3.subV longEdge tempPoint1).length ops
    let distT : K := cosT * lenT * 2
    let tempPoint2 : Vec3 K := Vec3.addV (dir.setLength ops distT) tempPoint1
    let vc : ℕ := st.verticesCount + 6
    let posIdx : List K × List ℕ :=
      if 0 < sideOffset then
        ([tempPoint1.x, tempPoint1.y, tempPoint1.z, rightE.x, rightE.y, rightE.z,
          leftE.x, leftE.y, leftE.z, rightE.x, rightE.y, rightE.z,
          tempPoint2.x, tempPoint2.y, tempPoint2.z, rightE.x, rightE.y, rightE.z],
         [vc - 6, vc - 8, vc - 7, vc - 6, vc - 7, vc - 5,
          vc - 4, vc - 6, vc - 5, vc - 2, vc - 4, vc - 1])
      else
        ([leftE.x, leftE.y, leftE.z, tempPoint1.x, tempPoint1.y, tempPoint1.z,
          leftE.x, leftE.y, leftE.z, rightE.x, rightE.y, rightE.z,
          leftE.x, leftE.y, leftE.z, tempPoint2.x, tempPoint2.y, tempPoint2.z],
         [vc - 6, vc - 8, vc - 7, vc - 6, vc - 7, vc - 5,
          vc - 6, vc - 5, vc - 3, vc - 2, vc - 3, vc - 1])
    { position := st.position ++ posIdx.1,
      normal := st.normal ++ [up.x, up.y, up.z, up.x, up.y, up.z, up.x, up.y, up.z,
        up.x, up.y, up.z, up.x, up.y, up.z, up.x, up.y, up.z],
      uv := st.uv ++ [uvDist - ctx.sharpUvOffset, 0, uvDist - ctx.sharpUvOffset, 1,
        uvDist, 0, uvDist, 1, uvDist + ctx.sharpUvOffset, 0, uvDist + ctx.sharpUvOffset, 1],
      uv2 := if ctx.generateUv2 then
          st.uv2 ++ [uvDist2 - ctx.sharpUvOffset2, 0, uvDist2 - ctx.sharpUvOffset2, 1,
            uvDist2, 0, uvDist2, 1, uvDist2 + ctx.sharpUvOffset2, 0, uvDist2 + ctx.sharpUvOffset2, 1]
        else st.uv2,
      indices := st.indices ++ posIdx.2,
      verticesCount := vc,
      count := st.count + 12 }
  else
    let vc : ℕ := st.verticesCount + 2
    { position := st.position ++ [leftE.x, leftE.y, leftE.z, rightE.x, rightE.y, rightE.z],
      normal := st.normal ++ [up.x, up.y, up.z, up.x, up.y, up.z],
      uv := st.uv ++ [uvDist, 0, uvDist, 1],
      uv2 := if ctx.generateUv2 then st.uv2 ++ [uvDist2, 0, uvDist2, 1] else st.uv2,
      indices := if !first then
          st.indices ++ [vc - 2, vc - 4, vc - 3, vc - 2, vc - 3, vc - 1]
        else st.indices,
      verticesCount := vc,
      count := if !first then st.count + 6 else st.count }

/-- The `addStart` closure of `generatePathVertexData`: the three-vertex
arrow head appended at the terminal sample when `arrow` is enabled. -/
def ribbonAddStart (ops : ScalarOps K) (ctx : RibbonCtx K)
    (st : EmitState K) (pathPoint : PathPoint K) : EmitState K :=
  let dir : Vec3 K := pathPoint.dir
  let up : Vec3 K := pathPoint.up
  let uvDist : K := pathPoint.dist / ctx.sideWidth
  let uvDist2 : K := pathPoint.dist / ctx.totalDistance
  let rightE : Vec3 K :=
    Vec3.addV
      (if ctx.side ≠ Side.left then pathPoint.right.multiplyScalar (ctx.halfWidth * 2)
      else Vec3.zero)
      pathPoint.pos
  let leftE : Vec3 K :=
    Vec3.addV
      (if ctx.side ≠ Side.right then pathPoint.right.multiplyScalar (-ctx.halfWidth * 2)
      else Vec3.zero)
      pathPoint.pos
  let sharpv : Vec3 K := Vec3.addV (dir.setLength ops (ctx.halfWidth * 3)) pathPoint.pos
  let vc : ℕ := st.verticesCount + 3
  { position := st.position ++ [leftE.x, leftE.y, leftE.z, rightE.x, rightE.y, rightE.z,
      sharpv.x, sharpv.y, sharpv.z],
    normal := st.normal ++ [up.x, up.y, up.z, up.x, up.y, up.z, up.x, up.y, up.z],
    uv := st.uv ++ [uvDist,
        (if ctx.side ≠ Side.both then (if ctx.side ≠ Side.right then -2 else 0) else -(1/2)),
      uvDist,
        (if ctx.side ≠ Side.both then (if ctx.side ≠ Side.left then 2 else 0) else 3/2),
      uvDist + 3/2, (if ctx.side ≠ Side.both then 0 else 1/2)],
    uv2 := if ctx.generateUv2 then
        st.uv2 ++ [uvDist2,
            (if ctx.side ≠ Side.both then (if ctx.side ≠ Side.right then -2 else 0) else -(1/2)),
          uvDist2,
            (if ctx.side ≠ Side.both then (if ctx.side ≠ Side.left then 2 else 0) else 3/2),
          uvDist2 + (3/2 * ctx.width / ctx.totalDistance),
            (if ctx.side ≠ Side.both then 0 else 1/2)]
      else st.uv2,
    indices := st.indices ++ [vc - 1, vc - 3, vc - 2],
    verticesCount := vc,
    count := st.count + 3 }

/-- `generatePathVertexData(pathPointList, options, generateUv2)`: the flat
ribbon emitter.  Returns `null` when the total distance is zero; otherwise
walks the truncation loop (when `progressDistance > 0`) and appends the arrow
head at `lastPoint || array[count - 1]` (or at `array[0]` when
`progressDistance ≤ 0`) if `arrow` is enabled. -/
def generatePathVertexData (ops : ScalarOps K) (pl : PathPointList K)
    (opts : JsOptions K) (generateUv2 : Bool) : EmitResult K :=
  let width : K := jsOrK opts.width (1 / 10)
  let progress : K := opts.progress.getD 1
  let arrow : Bool := opts.arrow.getD true
  let side : Side := opts.side.getD Side.both
  let halfWidth : K := width / 2
  let sideWidth : K := if side ≠ Side.both then width / 2 else width
  let totalDistance : K := pl.distance
  let progressDistance : K := progress * totalDistance
  if totalDistance = 0 then EmitResult.null
  else
    let ctx : RibbonCtx K :=
      ⟨side, width, halfWidth, sideWidth, totalDistance,
        halfWidth / sideWidth, halfWidth / totalDistance, generateUv2⟩
    if 0 < progressDistance then
      match truncGo progressDistance pl.array pl.count none with
      | none => EmitResult.crash
      | some pr =>
        let st : EmitState K := pr.1.foldl (ribbonAddVertices ops ctx) EmitState.init
        if arrow then
          match pr.2 with
          | some lp => EmitResult.data (ribbonAddStart ops ctx st lp)
          | none =>
            match pl.array.get? (pl.count - 1), pl.count with
            | _, 0 => EmitResult.crash
            | none, _ => EmitResult.crash
            | some lp, _ + 1 => EmitResult.data (ribbonAddStart ops ctx st lp)
        else EmitResult.data st
    else
      if arrow then
        match pl.array.get? 0 with
        | none => EmitResult.crash
        | some lp => EmitResult.data (ribbonAddStart ops ctx EmitState.init lp)
      else EmitResult.data EmitState.init

/-- The effective radial-segment count of the circular-tube emitter:
`Math.max(2, options.radialSegments || 8)`.  Note `0` is falsy in JavaScript,
so a requested `0` selects the default `8` before the clamp. -/
def tubeRadialSegments (o : Option ℕ) : ℕ := max 2 (jsOrNat o 8)

/-- One iteration of the ring-vertex loop of the circular tube's
`addVertices` (`for r = 0; r <= radialSegments; r++`). -/
def tubeRingVertex (ops : ScalarOps K) (circum totalDistance startRad : K)
    (generateUv2 : Bool) (radius : K) (radialSegments : ℕ) (pathPoint : PathPoint K)
    (s : EmitState K) (r : ℕ) : EmitState K :=
  let uvDist : K := pathPoint.dist / circum
  let uvDist2 : K := pathPoint.dist / totalDistance
  let rr : ℕ := if r = radialSegments then 0 else r
  let normalDir : Vec3 K :=
    ((pathPoint.up.applyAxisAngle ops pathPoint.dir
      (startRad + ops.pi * 2 * (rr : K) / (radialSegments : K))).normalize ops)
  { s with
    position := s.position ++
      [pathPoint.pos.x + normalDir.x * radius * pathPoint.widthScale,
       pathPoint.pos.y + normalDir.y * radius * pathPoint.widthScale,
       pathPoint.pos.z + normalDir.z * radius * pathPoint.widthScale],
    normal := s.normal ++ [normalDir.x, normalDir.y, normalDir.z],
    uv := s.uv ++ [uvDist, (r : K) / (radialSegments : K)],
    uv2 := if generateUv2 then s.uv2 ++ [uvDist2, (r : K) / (radialSegments : K)]
      else s.uv2,
    verticesCount := s.verticesCount + 1 }

/-- One iteration of the quad-strip index loop shared (verbatim) by the
circular tube and the 5-vertex rectangular generator. -/
def quadStripStep (begin1 begin2 : ℕ) (s : EmitState K) (i : ℕ) : EmitState K :=
  { s with
    indices := s.indices ++ [begin2 + i, begin1 + i, begin1 + i + 1,
      begin2 + i, begin1 + i + 1, begin2 + i + 1],
    count := s.count + 6 }

/-- The `addVertices` closure of the circular tube `generateTubeVertexData$1`:
one ring of `radialSegments + 1` vertices (seam vertex duplicated), plus the
quad-strip indices against the previous ring when not first. -/
def tubeAddVertices (ops : ScalarOps K) (circum totalDistance startRad : K)
    (generateUv2 : Bool) (radius : K) (radialSegments : ℕ)
    (st : EmitState K) (pathPoint : PathPoint K) : EmitState K :=
  let first : Bool := decide (st.position.length = 0)
  let st1 : EmitState K := (List.range (radialSegments + 1)).foldl
    (tubeRingVertex ops circum totalDistance startRad generateUv2 radius radialSegments
      pathPoint) st
  if !first then
    let begin1 : ℕ := st1.verticesCount - (radialSegments + 1) * 2
    let begin2 : ℕ := st1.verticesCount - (radialSegments + 1)
    (List.range radialSegments).foldl (quadStripStep begin1 begin2) st1
  else st1

/-- `generateTubeVertexData$1(pathPointList, options, generateUv2)`: the
circular-tube emitter. -/
def generateTubeVertexData1 (ops : ScalarOps K) (pl : PathPointList K)
    (opts : JsOptions K) (generateUv2 : Bool) : EmitResult K :=
  let radius : K := jsOrK opts.radius (1 / 10)
  let progress : K := opts.progress.getD 1
  let radialSegments : ℕ := tubeRadialSegments opts.radialSegments
  let startRad : K := jsOrK opts.startRad 0
  let circum : K := radius * 2 * ops.pi
  let totalDistance : K := pl.distance
  let progressDistance : K := progress * totalDistance
  if progressDistance = 0 then EmitResult.null
  else if 0 < progressDistance then
    match truncGo progressDistance pl.array pl.count none with
    | none => EmitResult.crash
    | some pr =>
      EmitResult.data (pr.1.foldl
        (tubeAddVertices ops circum totalDistance startRad generateUv2 radius radialSegments)
        EmitState.init)
  else EmitResult.data EmitState.init

/-- The `addVertices` closure of the 8-vertex rectangular-tube generator
(`generateTubeVertexData` of the bundled build): the four box corners, each
duplicated with a distinct face normal; `A1`, `B1`, `C1`, `D1` are constructed
identically to `A`, `B`, `C`, `D` in the source.  (This variant pushes no
`uv2` entries and never touches `verticesCount` or per-ring indices.) -/
def rectBAddVertices (ops : ScalarOps K)
    (totalDistance width height halfWidth halfHeight sideTotalDis : K)
    (st : EmitState K) (pathPoint : PathPoint K) : EmitState K :=
  let centerPosition : Vec3 K := pathPoint.pos
  let up : Vec3 K := pathPoint.up
  let rightv : Vec3 K := pathPoint.right
  let A : Vec3 K := Vec3.addV (Vec3.addV centerPosition (up.multiplyScalar halfHeight))
    (rightv.multiplyScalar (-halfWidth))
  let B : Vec3 K := Vec3.addV (Vec3.addV centerPosition (up.multiplyScalar halfHeight))
    (rightv.multiplyScalar halfWidth)
  let C : Vec3 K := Vec3.addV (Vec3.addV centerPosition (up.multiplyScalar (-halfHeight)))
    (rightv.multiplyScalar halfWidth)
  let D : Vec3 K := Vec3.addV (Vec3.addV centerPosition (up.multiplyScalar (-halfHeight)))
    (rightv.multiplyScalar (-halfWidth))
  let normalA : Vec3 K := (rightv.negateV).normalize ops
  let normalA1 : Vec3 K := up.normalize ops
  let normalB : Vec3 K := normalA1
  let normalB1 : Vec3 K := normalA.negateV
  let normalC : Vec3 K := normalB1
  let normalC1 : Vec3 K := normalB.negateV
  let normalD : Vec3 K := normalC1
  let normalD1 : Vec3 K := normalA
  let v : K := pathPoint.dist / totalDistance
  { st with
    position := st.position ++ [A.x, A.y, A.z, B.x, B.y, B.z, B.x, B.y, B.z,
      C.x, C.y, C.z, C.x, C.y, C.z, D.x, D.y, D.z, D.x, D.y, D.z, A.x, A.y, A.z],
    normal := st.normal ++ [normalA1.x, normalA1.y, normalA1.z, normalB.x, normalB.y, normalB.z,
      normalB1.x, normalB1.y, normalB1.z, normalC.x, normalC.y, normalC.z,
      normalC1.x, normalC1.y, normalC1.z, normalD.x, normalD.y, normalD.z,
      normalD1.x, normalD1.y, normalD1.z, normalA.x, normalA.y, normalA.z],
    uv := st.uv ++ [v, 0, v, width / sideTotalDis, v, width / sideTotalDis,
      v, (height + width) / sideTotalDis, v, (height + width) / sideTotalDis,
      v, (width * 2 + height) / sideTotalDis, v, (width * 2 + height) / sideTotalDis, v, 1],
    count := st.count + 8 }

/-- The ring-connecting index loop of the 8-vertex rectangular generator
(`for i = 0; i < positionNum; i += 8`, guarded by `i + 8 < count`). -/
def rectBIndexLoop (positionNum count : ℕ) : List ℕ :=
  (List.range ((positionNum + 7) / 8)).foldl
    (fun acc k =>
      let i : ℕ := 8 * k
      if i + 8 < count then
        acc ++ [i, i + 1, i + 8 + 1, i, i + 8 + 1, i + 8,
          i + 2, i + 3, i + 8 + 3, i + 2, i + 8 + 3, i + 8 + 2,
          i + 4, i + 5, i + 8 + 5, i + 4, i + 8 + 5, i + 8 + 4,
          i + 6, i + 7, i + 8 + 7, i + 6, i + 8 + 7, i + 8 + 6]
      else acc) []

/-- `generateTubeVertexData(pathPointList, options, generateUv2)` of the
bundled build (`PathRectangleGeometry`, 8 ring vertices per sample). -/
def generateTubeVertexDataRect (ops : ScalarOps K) (pl : PathPointList K)
    (opts : JsOptions K) (_generateUv2 : Bool) : EmitResult K :=
  let progress : K := opts.progress.getD 1
  let width : K := jsOrK opts.width 1
  let height : K := jsOrK opts.height (1 / 2)
  let totalDistance : K := pl.distance
  let progressDistance : K := progress * totalDistance
  if progressDistance = 0 then EmitResult.null
  else
    let halfWidth : K := width / 2
    let halfHeight : K := height / 2
    let sideTotalDis : K := (width + height) * 2
    let core : Option (EmitState K) :=
      if 0 < progressDistance then
        (truncGo progressDistance pl.array pl.count none).map fun pr =>
          pr.1.foldl
            (rectBAddVertices ops totalDistance width height halfWidth halfHeight sideTotalDis)
            EmitState.init
      else some EmitState.init
    match core with
    | none => EmitResult.crash
    | some st =>
      let positionNum : ℕ := st.position.length / 3
      EmitResult.data { st with indices := st.indices ++ rectBIndexLoop positionNum st.count }

/-- One iteration of the ring-vertex loop of the 5-vertex rectangular
generator (`for r = 0; r <= 4; r++`), threading the `nowDis` accumulator. -/
def rectARingVertex (ops : ScalarOps K) (circum totalDistance : K)
    (generateUv2 : Bool) (width height : K) (pathPoint : PathPoint K)
    (acc : EmitState K × K) (r : ℕ) : EmitState K × K :=
  let uvDist : K := pathPoint.dist / circum
  let uvDist2 : K := pathPoint.dist / totalDistance
  let totalR : K := (width + height) * 2
  let s : EmitState K := acc.1
  let nowDis : K := acc.2
  let pos : Vec3 K := pathPoint.pos
  let normalDir : Vec3 K := (Vec3.crossVectors pathPoint.up pathPoint.dir).normalize ops
  let heightPos0 : Vec3 K := (pathPoint.up.normalize ops).multiplyScalar (height / 2)
  let heightPos : Vec3 K := if r = 2 ∨ r = 3 then heightPos0.negateV else heightPos0
  let widthPos0 : Vec3 K := normalDir.multiplyScalar (width / 2)
  let widthPos : Vec3 K := if r = 1 ∨ r = 2 then widthPos0.negateV else widthPos0
  let finalPos : Vec3 K := Vec3.addV (Vec3.addV pos heightPos) widthPos
  let nowDis1 : K :=
    if r = 1 ∨ r = 3 then nowDis + width
    else if r = 2 ∨ r = 4 then nowDis + height
    else nowDis
  ({ s with
    position := s.position ++ [finalPos.x, finalPos.y, finalPos.z],
    normal := s.normal ++ [normalDir.x, normalDir.y, normalDir.z],
    uv := s.uv ++ [uvDist, nowDis1 / totalR],
    uv2 := if generateUv2 then s.uv2 ++ [uvDist2, nowDis1 / totalR] else s.uv2,
    verticesCount := s.verticesCount + 1 }, nowDis1)

/-- The `addVertices` closure of the 5-vertex rectangular-tube generator
(`src/PathRectangleGeometry.js`): five ring vertices built in the plane
spanned by `up` and `up × dir`, with perimeter-banded uv, plus the
quad-strip indices against the previous ring when not first. -/
def rectAAddVertices (ops : ScalarOps K) (circum totalDistance : K)
    (generateUv2 : Bool) (width height : K)
    (st : EmitState K) (pathPoint : PathPoint K) : EmitState K :=
  let first : Bool := decide (st.position.length = 0)
  let st1 : EmitState K := ((List.range 5).foldl
    (rectARingVertex ops circum totalDistance generateUv2 width height pathPoint)
    (st, 0)).1
  if !first then
    let begin1 : ℕ := st1.verticesCount - (4 + 1) * 2
    let begin2 : ℕ := st1.verticesCount - (4 + 1)
    (List.range 4).foldl (quadStripStep begin1 begin2) st1
  else st1

/-- `generateTubeVertexData(pathPointList, options, generateUv2)` of
`src/PathRectangleGeometry.js` (5 ring vertices per sample). -/
def generateTubeVertexDataRectA (ops : ScalarOps K) (pl : PathPointList K)
    (opts : JsOptions K) (generateUv2 : Bool) : EmitResult K :=
  let radius : K := jsOrK opts.radius (1 / 10)
  let progress : K := opts.progress.getD 1
  let width : K := jsOrK opts.width 1
  let height : K := jsOrK opts.height (1 / 2)
  let circum : K := radius * 2 * ops.pi
  let totalDistance : K := pl.distance
  let progressDistance : K := progress * totalDistance
  if progressDistance = 0 then EmitResult.null
  else if 0 < progressDistance then
    match truncGo progressDistance pl.array pl.count none with
    | none => EmitResult.crash
    | some pr =>
      EmitResult.data (pr.1.foldl
        (rectAAddVertices ops circum totalDistance generateUv2 width height)
        EmitState.init)
  else EmitResult.data EmitState.init

/-- The draw-range bookkeeping shared by every `update` method:
`drawRange.count = vertexData.count` when data was produced, `0` on `null`;
a thrown TypeError (`crash`) leaves no defined draw range. -/
def drawRangeOf : EmitResult K → Option ℕ
  | EmitResult.crash => none
  | EmitResult.null => some 0
  | EmitResult.data vd => some vd.count

/-- `PathGeometry.update`: the resulting `drawRange.count`. -/
def pathUpdateDrawRange (ops : ScalarOps K) (pl : PathPointList K)
    (opts : JsOptions K) (generateUv2 : Bool) : Option ℕ :=
  drawRangeOf (generatePathVertexData ops pl opts generateUv2)

/-- `PathTubeGeometry.update`: the resulting `drawRange.count`. -/
def tubeUpdateDrawRange (ops : ScalarOps K) (pl : PathPointList K)
    (opts : JsOptions K) (generateUv2 : Bool) : Option ℕ :=
  drawRangeOf (generateTubeVertexData1 ops pl opts generateUv2)

/-- `PathRectangleGeometry.update` (bundled build): the resulting
`drawRange.count`. -/
def rectUpdateDrawRange (ops : ScalarOps K) (pl : PathPointList K)
    (opts : JsOptions K) (generateUv2 : Bool) : Option ℕ :=
  drawRangeOf (generateTubeVertexDataRect ops pl opts generateUv2)

/-- `PathRectangleGeometry.update` (`src/` variant): the resulting
`drawRange.count`. -/
def rectAUpdateDrawRange (ops : ScalarOps K) (pl : PathPointList K)
    (opts : JsOptions K) (generateUv2 : Bool) : Option ℕ :=
  drawRangeOf (generateTubeVertexDataRectA ops pl opts generateUv2)

/-- The number of `position` entries of a produced vertex-data object. -/
def posLenOf : EmitResult K → Option ℕ
  | EmitResult.data vd => some vd.position.length
  | _ => none

/-- The number of `indices` entries of a produced vertex-data object. -/
def idxLenOf : EmitResult K → Option ℕ
  | EmitResult.data vd => some vd.indices.length
  | _ => none

/-- The number of emitted vertices of a produced vertex-data object
(`position` holds three floats per vertex). -/
def vertexCountOf : EmitResult K → Option ℕ
  | EmitResult.data vd => some (vd.position.length / 3)
  | _ => none

/-- The sum of the lengths of the consecutive deltas of a key-point list. -/
def pairwiseDist (ops : ScalarOps K) (pts : List (Vec3 K)) : K :=
  ((pts.zip pts.tail).map fun ab => (Vec3.subV ab.2 ab.1).length ops).sum

/-- A frame sample with exactly orthonormal `dir`, `up`, `right`. -/
def OrthoFrame (p : PathPoint K) : Prop :=
  Vec3.dot p.dir p.dir = 1 ∧ Vec3.dot p.up p.up = 1 ∧ Vec3.dot p.right p.right = 1 ∧
    Vec3.dot p.dir p.up = 0 ∧ Vec3.dot p.dir p.right = 0 ∧ Vec3.dot p.up p.right = 0

instance (p : PathPoint K) : Decidable (OrthoFrame p) := by
  unfold OrthoFrame; infer_instance

/-- Non-marginality of one rotation-minimizing transport: the tangent cross
product is either exactly zero (parallel tangents, rotation skipped soundly)
or above the `Number.EPSILON` guard (rotation taken).  In the in-between band
the source skips a genuinely nonzero rotation and exact perpendicularity is
lost. -/
def transportOk (ops : ScalarOps K) (prevDir newDir : Vec3 K) : Prop :=
  Vec3.crossVectors prevDir newDir = Vec3.zero ∨
    ops.epsilon < (Vec3.crossVectors prevDir newDir).length ops

/-- Non-degeneracy of a `_start` call: a nonzero initial tangent whose first
component is below `Number.MAX_VALUE` (auto-up case), or a forced up vector
not parallel to the tangent. -/
def startOk (ops : ScalarOps K) (current next : Vec3 K) (upOpt : Option (Vec3 K)) : Prop :=
  match upOpt with
  | none =>
    Vec3.subV next current ≠ Vec3.zero ∧ |(Vec3.subV next current).x| < ops.maxValue
  | some u => Vec3.crossVectors (Vec3.subV next current) u ≠ Vec3.zero

/-- Non-degeneracy of a `_sharpCorner` call: nonzero edge vectors for the
selected direction mode, and either a non-marginal transport (auto-up) or a
forced up vector that is neither in the `dot = 1` special branch nor parallel
to the new tangent. -/
def sharpOk (ops : ScalarOps K) (lastPoint : PathPoint K) (current next : Vec3 K)
    (upOpt : Option (Vec3 K)) (dirType : ℕ) : Prop :=
  let lastDirRaw : Vec3 K := Vec3.subV current lastPoint.pos
  let nextDirRaw : Vec3 K := Vec3.subV next current
  let lastDir : Vec3 K := lastDirRaw.normalize ops
  let nextDir : Vec3 K := nextDirRaw.normalize ops
  let dir : Vec3 K :=
    if dirType = 1 then lastDir
    else if dirType = 2 then nextDir
    else (Vec3.addV lastDir nextDir).normalize ops
  (if dirType = 1 then lastDirRaw ≠ Vec3.zero
   else if dirType = 2 then nextDirRaw ≠ Vec3.zero
   else lastDirRaw ≠ Vec3.zero ∧ nextDirRaw ≠ Vec3.zero ∧
     Vec3.addV lastDir nextDir ≠ Vec3.zero) ∧
  (match upOpt with
   | some u => Vec3.dot dir u ≠ 1 ∧ Vec3.crossVectors dir u ≠ Vec3.zero
   | none => transportOk ops lastPoint.dir dir)

/-- Non-degeneracy of an `_end` call. -/
def endOk (ops : ScalarOps K) (lastPoint : PathPoint K) (current : Vec3 K) : Prop :=
  Vec3.subV current lastPoint.pos ≠ Vec3.zero ∧
    transportOk ops lastPoint.dir ((Vec3.subV current lastPoint.pos).normalize ops)

/-- Non-degeneracy of a chain of `_sharpCorner` steps applied in order. -/
def stepsOk (ops : ScalarOps K) (upOpt : Option (Vec3 K)) :
    List (PathPoint K) → List (SharpStep K) → Prop
  | _, [] => True
  | st, s :: rest =>
    sharpOk ops (lastD st) s.1 s.2.1 upOpt s.2.2.1 ∧
      stepsOk ops upOpt (applyStep ops upOpt st s) rest

/-- Non-degeneracy of the `set` loop body along its own recursion. -/
def buildRestOk (ops : ScalarOps K) (cornerRadius : K) (cornerSplit : ℕ)
    (upOpt : Option (Vec3 K)) (close : Bool) (secondPt : Vec3 K) :
    List (Vec3 K) → Vec3 K → List (PathPoint K) → Prop
  | [], cur, st =>
    if close then
      stepsOk ops upOpt st
        (cornerSteps ops cornerRadius cornerSplit (lastD st).pos
          (decide (st.length = 1)) cur secondPt)
    else endOk ops (lastD st) cur
  | nxt :: rem, cur, st =>
    stepsOk ops upOpt st
      (cornerSteps ops cornerRadius cornerSplit (lastD st).pos
        (decide (st.length = 1)) cur nxt) ∧
    buildRestOk ops cornerRadius cornerSplit upOpt close secondPt rem nxt
      (cornerAppend ops cornerRadius cornerSplit upOpt st cur nxt)

/-- Non-degeneracy of an entire `set` run: every construction step it
performs has nonzero tangents and non-marginal transports. -/
def setPathOk (ops : ScalarOps K) (points0 : List (Vec3 K)) (cornerRadius : K)
    (cornerSplit : ℕ) (upOpt : Option (Vec3 K)) (close : Bool) : Prop :=
  if points0.length < 2 then True
  else
    let points : List (Vec3 K) :=
      if close && !(Vec3.equalsV (points0.headD Vec3.zero) (points0.getLastD Vec3.zero)) then
        points0 ++ [points0.headD Vec3.zero]
      else points0
    match points with
    | p0 :: p1 :: rem =>
      startOk ops p0 p1 upOpt ∧
        buildRestOk ops cornerRadius cornerSplit upOpt close p1 rem p1
          [startPoint ops p0 p1 upOpt]
    | _ => True

/-! ## Concrete fixtures

A straight two-sample frame list (`dist` 0 and 10) over `ℚ`, used by the
executable counterexamples and witnesses. -/

/-- First sample of the straight fixture path. -/
def flatSample0 : PathPoint ℚ :=
  { pos := ⟨0, 0, 0⟩, dir := ⟨1, 0, 0⟩, right := ⟨0, -1, 0⟩, up := ⟨0, 0, 1⟩,
    dist := 0, widthScale := 1, sharp := false }

/-- Second sample of the straight fixture path, 10 units along. -/
def flatSample10 : PathPoint ℚ :=
  { pos := ⟨10, 0, 0⟩, dir := ⟨1, 0, 0⟩, right := ⟨0, -1, 0⟩, up := ⟨0, 0, 1⟩,
    dist := 10, widthScale := 1, sharp := false }

/-- The straight two-sample fixture list. -/
def straightList : PathPointList ℚ := PathPointList.ofList [flatSample0, flatSample10]

/-! ## Scalar-operation instances

`ratOps` is a computable rational instance used to evaluate the embedding on
concrete inputs (its square root is exact on perfect squares and `0`
elsewhere; the trigonometric slots are stubs, which no counted or compared
quantity in the concrete evaluations depends on).  `realOps` is the
real-number instance matching the JavaScript `Math` library, and
`LawfulScalarOps` captures the analytic laws of those routines that the
orthonormality and monotonicity proofs rely on. -/

/-- The exact natural square root when `n` is a perfect square. -/
def natSqrtExact (n : ℕ) : Option ℕ :=
  (List.range (n + 1)).find? fun k => decide (k * k = n)

/-- An exact square root on `ℚ`: the rational root when one exists, `0`
otherwise.  Nonnegative everywhere, exact on squares. -/
def ratSqrt (q : ℚ) : ℚ :=
  if 0 ≤ q then
    match natSqrtExact q.num.toNat, natSqrtExact q.den with
    | some a, some b => (a : ℚ) / (b : ℚ)
    | _, _ => 0
  else 0

/-- Computable rational scalar operations for concrete evaluation. -/
def ratOps : ScalarOps ℚ :=
  { sqrt := ratSqrt, sin := fun _ => 0, cos := fun _ => 0, arccos := fun _ => 0,
    pi := 355 / 113, epsilon := 1 / 2 ^ 52, maxValue := 2 ^ 1024 }

/-- The real-number scalar operations of the JavaScript `Math` library
(`Number.EPSILON = 2⁻⁵²`, `Number.MAX_VALUE = (2⁵³ − 1)·2⁹⁷¹`). -/
noncomputable def realOps : ScalarOps ℝ :=
  { sqrt := Real.sqrt, sin := Real.sin, cos := Real.cos, arccos := Real.arccos,
    pi := Real.pi, epsilon := 1 / 2 ^ 52, maxValue := (2 ^ 53 - 1) * 2 ^ 971 }

/-- The analytic laws of the `ScalarOps` routines used by the frame-builder
proofs; `realOps` satisfies all of them. -/
structure LawfulScalarOps (ops : ScalarOps K) : Prop where
  sqrt_nonneg : ∀ x : K, 0 ≤ ops.sqrt x
  sq_sqrt : ∀ x : K, 0 ≤ x → ops.sqrt x ^ 2 = x
  sqrt_eq_zero : ∀ x : K, 0 ≤ x → (ops.sqrt x = 0 ↔ x = 0)
  cos_arccos : ∀ x : K, -1 ≤ x → x ≤ 1 → ops.cos (ops.arccos x) = x
  sin_arccos : ∀ x : K, -1 ≤ x → x ≤ 1 → ops.sin (ops.arccos x) = ops.sqrt (1 - x ^ 2)
  epsilon_pos : 0 < ops.epsilon

/-- `realOps` satisfies the analytic laws. -/
theorem realOps_lawful : LawfulScalarOps realOps := by
  constructor
  · intro x; exact Real.sqrt_nonneg x
  · intro x hx; simpa [realOps] using Real.sq_sqrt hx
  · intro x hx
    constructor
    · intro h
      rcases (Real.sqrt_eq_zero hx).mp h with h0
      exact h0
    · intro h; simp [realOps, h]
  · intro x h1 h2; simpa [realOps] using Real.cos_arccos h1 h2
  · intro x h1 h2
    simpa [realOps] using Real.sin_arccos (x := x)
  · norm_num [realOps]

/-- `ratSqrt` is nonnegative (the law the distance-monotonicity theorem
assumes about the square-root routine). -/
theorem ratSqrt_nonneg : ∀ x : ℚ, 0 ≤ ratSqrt x := by
  intro x
  unfold ratSqrt
  split
  · cases natSqrtExact x.num.toNat with
    | none => simp
    | some a =>
      cases natSqrtExact x.den with
      | none => simp
      | some b => simp only; positivity
  · exact le_refl 0

/-! ## Claim C5: radial-segment clamping of the circular-tube emitter -/

/-- C5 counterexample: a requested `radialSegments` of `0` is below 2 but is
not clamped to 2 — `0` is falsy in JavaScript, so `options.radialSegments || 8`
selects the default `8` before the `Math.max(2, ·)` clamp, and the circular
tube is generated with 8 radial segments (9 ring vertices), not 2. -/
theorem c5_radialSegments_zero_counterexample :
    tubeRadialSegments (some 0) = 8 ∧ tubeRadialSegments (some 0) ≠ 2 ∧
    posLenOf (generateTubeVertexData1 ratOps straightList
      ⟨none, none, none, none, none, some 0, none, none⟩ false) = some 54 := by
  refine ⟨by decide, by decide, by decide⟩

/-- C5 (amended): the effective radial-segment count
`Math.max(2, options.radialSegments || 8)` is always at least 2 and equals the
requested value whenever that value is at least 2; a requested `1` is clamped
to exactly 2, but a requested `0` (being falsy) selects the default 8, as does
an absent value. -/
theorem c5_tubeRadialSegments_clamp :
    (∀ o : Option ℕ, 2 ≤ tubeRadialSegments o) ∧
    (∀ n : ℕ, 2 ≤ n → tubeRadialSegments (some n) = n) ∧
    tubeRadialSegments (some 1) = 2 ∧
    tubeRadialSegments (some 0) = 8 ∧ tubeRadialSegments none = 8 := by
  refine ⟨?_, ?_, by decide, by decide, by decide⟩
  · intro o; exact le_max_left _ _
  · intro n hn
    have hne : ¬ n = 0 := by omega
    simp only [tubeRadialSegments, jsOrNat, hne, if_false]
    omega

/-- C5 witness: the requested value 5 is at least 2 and is kept. -/
theorem c5_witness : 2 ≤ 5 ∧ tubeRadialSegments (some 5) = 5 :=
  ⟨by decide, c5_tubeRadialSegments_clamp.2.1 5 (by decide)⟩

/-! ## Claim C6: fewer than two input points -/

/-- C6: for fewer than two input points, `PathPointList.set` produces the
empty sequence (`count = 0`) and returns normally — the condition is recovered
locally (the source only logs a warning), not raised. -/
theorem c6_setPath_short_input (ops : ScalarOps K) (points : List (Vec3 K))
    (cornerRadius : K) (cornerSplit : ℕ) (upOpt : Option (Vec3 K)) (close : Bool)
    (h : points.length < 2) :
    setPath ops points cornerRadius cornerSplit upOpt close = [] ∧
    (PathPointList.ofList (setPath ops points cornerRadius cornerSplit upOpt close)).count = 0 := by
  unfold setPath
  simp [h, PathPointList.ofList]

/-- C6 witness: a one-point input over `ℚ`. -/
theorem c6_witness :
    ([(⟨1, 2, 3⟩ : Vec3 ℚ)].length < 2) ∧
    setPath ratOps [⟨1, 2, 3⟩] (1 / 10) 10 none false = [] :=
  ⟨by decide, (c6_setPath_short_input ratOps [⟨1, 2, 3⟩] (1 / 10) 10 none false (by decide)).1⟩

/-! ## Claim C9: the truncation sample is never sharp -/

/-- Any truncation sample produced by the shared progressive-truncation loop
is a lerp into a fresh `PathPoint`, whose `sharp` flag stays `false`. -/
theorem truncGo_sharp_false (pd : K) :
    ∀ (arr : List (PathPoint K)) (n : ℕ) (prevOpt : Option (PathPoint K))
      (l : List (PathPoint K)) (lp : PathPoint K),
      truncGo pd arr n prevOpt = some (l, some lp) → lp.sharp = false := by
  intro arr
  induction arr with
  | nil =>
    intro n prevOpt l lp h
    cases n with
    | zero => simp [truncGo] at h
    | succ m => simp [truncGo] at h
  | cons p rest ih =>
    intro n prevOpt l lp h
    cases n with
    | zero => simp [truncGo] at h
    | succ m =>
      simp only [truncGo] at h
      by_cases hd : pd < p.dist
      · rw [if_pos hd] at h
        cases prevOpt with
        | none => simp at h
        | some prev =>
          simp only [Option.some.injEq] at h
          cases h
          rfl
      · rw [if_neg hd] at h
        cases he : truncGo pd rest m (some p) with
        | none => rw [he] at h; simp at h
        | some pr =>
          obtain ⟨l2, o2⟩ := pr
          rw [he] at h
          simp at h
          exact ih m (some p) l2 lp (by rw [he, h.2])

/-- C9: a progress truncation always synthesizes its sample by lerping into a
fresh `PathPoint`, so the `sharp` flag is `false` there (lerp does not
transfer it), and the ribbon emitter always appends a plain two-vertex ring at
the truncation point — 6 position floats and 2 vertices, never the 6-vertex
miter fan — regardless of the surrounding samples' flags. -/
theorem c9_truncation_ring_plain (ops : ScalarOps K) :
    (∀ (prev cur : PathPoint K) (alpha : K),
      (PathPoint.lerpPathPoints PathPoint.new prev cur alpha).sharp = false) ∧
    (∀ (ctx : RibbonCtx K) (st : EmitState K) (prev cur : PathPoint K) (alpha : K),
      (ribbonAddVertices ops ctx st
        (PathPoint.lerpPathPoints PathPoint.new prev cur alpha)).position.length =
          st.position.length + 6 ∧
      (ribbonAddVertices ops ctx st
        (PathPoint.lerpPathPoints PathPoint.new prev cur alpha)).verticesCount =
          st.verticesCount + 2) ∧
    (∀ (pd : K) (arr : List (PathPoint K)) (n : ℕ) (prevOpt : Option (PathPoint K))
      (l : List (PathPoint K)) (lp : PathPoint K),
      truncGo pd arr n prevOpt = some (l, some lp) → lp.sharp = false) := by
  refine ⟨fun prev cur alpha => rfl, ?_, fun pd => truncGo_sharp_false pd⟩
  intro ctx st prev cur alpha
  have hsharp : (PathPoint.lerpPathPoints PathPoint.new prev cur alpha).sharp = false := rfl
  constructor
  · simp [ribbonAddVertices, hsharp]
  · simp [ribbonAddVertices, hsharp]

/-! ## Claim C2: progress = 0 -/

/-- The arrow head appended to an empty accumulator has exactly 3 vertices
(9 position floats) and 3 indices. -/
theorem ribbonAddStart_init_lengths (ops : ScalarOps K) (ctx : RibbonCtx K)
    (lp : PathPoint K) :
    (ribbonAddStart ops ctx EmitState.init lp).position.length = 9 ∧
    (ribbonAddStart ops ctx EmitState.init lp).indices.length = 3 := by
  constructor <;> simp [ribbonAddStart, EmitState.init]

/-- A `PathPointList` whose `distance()` is nonzero has `0 < count`. -/
theorem count_pos_of_distance_ne_zero (pl : PathPointList K)
    (h : pl.distance ≠ 0) : 0 < pl.count := by
  by_contra hc
  apply h
  unfold PathPointList.distance
  simp [Nat.eq_zero_of_not_pos hc]

/-- C2 counterexample: on a straight two-sample path of length 10, the ribbon
emitter with `progress = 0` and the default `arrow = true` does not return an
empty result — it returns a data object carrying the 3-vertex arrow head
(9 position floats, 3 indices). -/
theorem c2_ribbon_progress_zero_counterexample :
    generatePathVertexData ratOps straightList
      ⟨some 2, some 0, none, none, none, none, none, none⟩ false ≠ EmitResult.null ∧
    posLenOf (generatePathVertexData ratOps straightList
      ⟨some 2, some 0, none, none, none, none, none, none⟩ false) = some 9 ∧
    idxLenOf (generatePathVertexData ratOps straightList
      ⟨some 2, some 0, none, none, none, none, none, none⟩ false) = some 3 := by
  refine ⟨by decide, by decide, by decide⟩

/-- C2 (amended): with `progress = 0`, the circular-tube and both
rectangular-tube emitters return `null` (their guard tests
`progressDistance == 0`); the ribbon emitter returns `null` only when the
total distance is zero — with a nonzero total distance it returns a data
object, which is empty exactly when `arrow` is `false`, and otherwise carries
the 3-vertex arrow head built at `array[0]`. -/
theorem c2_progress_zero (ops : ScalarOps K) (pl : PathPointList K)
    (opts : JsOptions K) (g2 : Bool) (hp : opts.progress = some 0) :
    generateTubeVertexData1 ops pl opts g2 = EmitResult.null ∧
    generateTubeVertexDataRect ops pl opts g2 = EmitResult.null ∧
    generateTubeVertexDataRectA ops pl opts g2 = EmitResult.null ∧
    (pl.distance = 0 → generatePathVertexData ops pl opts g2 = EmitResult.null) ∧
    (pl.distance ≠ 0 → opts.arrow = some false →
      generatePathVertexData ops pl opts g2 = EmitResult.data EmitState.init) ∧
    (pl.distance ≠ 0 → opts.arrow.getD true = true → pl.count ≤ pl.array.length →
      posLenOf (generatePathVertexData ops pl opts g2) = some 9 ∧
      idxLenOf (generatePathVertexData ops pl opts g2) = some 3) := by
  refine ⟨?_, ?_, ?_, ?_, ?_, ?_⟩
  · simp [generateTubeVertexData1, hp]
  · simp [generateTubeVertexDataRect, hp]
  · simp [generateTubeVertexDataRectA, hp]
  · intro h0; simp [generatePathVertexData, hp, h0]
  · intro hne harrow
    simp [generatePathVertexData, hp, hne, harrow]
  · intro hne harrow hcnt
    have hcpos : 0 < pl.count := count_pos_of_distance_ne_zero pl hne
    have hlen : 0 < pl.array.length := lt_of_lt_of_le hcpos hcnt
    obtain ⟨a, t, hat⟩ : ∃ a t, pl.array = a :: t := by
      cases harr : pl.array with
      | nil => rw [harr] at hlen; simp at hlen
      | cons a t => exact ⟨a, t, rfl⟩
    have hget : pl.array[0]? = some a := by rw [hat]; simp
    constructor
    · simp [generatePathVertexData, hp, hne, harrow, hget, posLenOf,
        (ribbonAddStart_init_lengths ops _ a).1]
    · simp [generatePathVertexData, hp, hne, harrow, hget, idxLenOf,
        (ribbonAddStart_init_lengths ops _ a).2]

/-- C2 witness: the straight fixture with `progress = 0`, `arrow = false`. -/
theorem c2_witness :
    ((⟨some 2, some 0, some false, none, none, none, none, none⟩ : JsOptions ℚ).progress
        = some 0) ∧
    straightList.distance ≠ 0 ∧
    generatePathVertexData ratOps straightList
      ⟨some 2, some 0, some false, none, none, none, none, none⟩ false =
        EmitResult.data EmitState.init :=
  ⟨rfl, by decide,
    (c2_progress_zero ratOps straightList
      ⟨some 2, some 0, some false, none, none, none, none, none⟩ false rfl).2.2.2.2.1
      (by decide) rfl⟩

/-! ## Claim C10: negative progress and the truncation branch -/

/-- The truncation loop never reads out of bounds once a previous sample is
in hand, as long as the loop bound stays within the backing array. -/
theorem truncGo_isSome_of_prev (pd : K) :
    ∀ (arr : List (PathPoint K)) (n : ℕ) (prev : PathPoint K), n ≤ arr.length →
      (truncGo pd arr n (some prev)).isSome := by
  intro arr
  induction arr with
  | nil =>
    intro n prev h
    have hn : n = 0 := by simpa using h
    subst hn
    simp [truncGo]
  | cons p rest ih =>
    intro n prev h
    cases n with
    | zero => simp [truncGo]
    | succ m =>
      rw [truncGo.eq_def]
      simp only
      by_cases hd : pd < p.dist
      · simp [hd]
      · have : m ≤ rest.length := by simpa using h
        simpa [hd] using ih m p this

/-- Totality of the truncation loop from the start of the walk: if the loop
bound is within the backing array and the first sample does not already
exceed the progress distance, no out-of-bounds read occurs. -/
theorem truncGo_total (pd : K) (arr : List (PathPoint K)) (count : ℕ)
    (h1 : count ≤ arr.length)
    (h2 : 0 < count → ¬ pd < (arr.headD PathPoint.new).dist) :
    (truncGo pd arr count none).isSome := by
  cases count with
  | zero => simp [truncGo]
  | succ m =>
    cases arr with
    | nil => simp at h1
    | cons p rest =>
      rw [truncGo.eq_def]
      simp only
      have hd : ¬ pd < p.dist := by simpa using h2 (Nat.succ_pos m)
      have : m ≤ rest.length := by simpa using h1
      simpa [hd] using truncGo_isSome_of_prev pd rest m p this

/-- C10 counterexample: on a path-point list with positive total distance, a
negative `progress` does not make the tube emitters enter the truncation
branch at the first sample (and hence read index −1): the walk is guarded by
`progressDistance > 0`, so all three return a data object with no vertices
and no indices at all. -/
theorem c10_negative_progress_counterexample :
    (0 : ℚ) < straightList.distance ∧
    generateTubeVertexData1 ratOps straightList
      ⟨none, some (-1), none, none, none, none, none, none⟩ false =
        EmitResult.data EmitState.init ∧
    generateTubeVertexDataRect ratOps straightList
      ⟨none, some (-1), none, none, none, none, none, none⟩ false =
        EmitResult.data EmitState.init ∧
    generateTubeVertexDataRectA ratOps straightList
      ⟨none, some (-1), none, none, none, none, none, none⟩ false =
        EmitResult.data EmitState.init := by
  refine ⟨by decide, by decide, by decide, by decide⟩

/-- C10 (amended): with a negative `progress` and positive total distance the
tube-family emitters skip the walk entirely (its guard is
`progressDistance > 0`) and return an empty data object, reading no sample at
index −1; and under the precondition `progress ≥ 0` (with the loop bound
within the backing array and a first sample at distance 0, as the builder
guarantees) the walk's previous-sample access is always in bounds, so none of
the three emitters can crash. -/
theorem c10_negative_progress (ops : ScalarOps K) :
    (∀ (pl : PathPointList K) (opts : JsOptions K) (g2 : Bool) (p : K),
      opts.progress = some p → p < 0 → 0 < pl.distance →
      generateTubeVertexData1 ops pl opts g2 = EmitResult.data EmitState.init ∧
      generateTubeVertexDataRect ops pl opts g2 = EmitResult.data EmitState.init ∧
      generateTubeVertexDataRectA ops pl opts g2 = EmitResult.data EmitState.init) ∧
    (∀ (pl : PathPointList K) (opts : JsOptions K) (g2 : Bool),
      0 ≤ opts.progress.getD 1 → pl.count ≤ pl.array.length →
      (0 < pl.count → (pl.array.headD PathPoint.new).dist = 0) →
      generateTubeVertexData1 ops pl opts g2 ≠ EmitResult.crash ∧
      generateTubeVertexDataRect ops pl opts g2 ≠ EmitResult.crash ∧
      generateTubeVertexDataRectA ops pl opts g2 ≠ EmitResult.crash) := by
  constructor
  · intro pl opts g2 p hp hneg htot
    have hpd : p * pl.distance < 0 := mul_neg_of_neg_of_pos hneg htot
    have hpd0 : ¬ p * pl.distance = 0 := ne_of_lt hpd
    have hpd1 : ¬ 0 < p * pl.distance := not_lt_of_gt hpd
    refine ⟨?_, ?_, ?_⟩
    · simp [generateTubeVertexData1, hp, hpd0, hpd1]
    · simp [generateTubeVertexDataRect, hp, hpd0, hpd1, rectBIndexLoop, EmitState.init]
    · simp [generateTubeVertexDataRectA, hp, hpd0, hpd1]
  · intro pl opts g2 hprog hcnt hhead
    have hwalk : 0 < opts.progress.getD 1 * pl.distance →
        (truncGo (opts.progress.getD 1 * pl.distance) pl.array pl.count none).isSome := by
      intro h0
      refine truncGo_total _ pl.array pl.count hcnt ?_
      intro hc
      rw [hhead hc]
      intro hlt
      exact absurd (lt_trans h0 hlt) (lt_irrefl 0)
    refine ⟨?_, ?_, ?_⟩
    · by_cases h0 : opts.progress.getD 1 * pl.distance = 0
      · simp [generateTubeVertexData1, h0]
      · by_cases h1 : 0 < opts.progress.getD 1 * pl.distance
        · obtain ⟨pr, hpr⟩ := Option.isSome_iff_exists.mp (hwalk h1)
          simp [generateTubeVertexData1, h0, h1, hpr]
        · simp [generateTubeVertexData1, h0, h1]
    · by_cases h0 : opts.progress.getD 1 * pl.distance = 0
      · simp [generateTubeVertexDataRect, h0]
      · by_cases h1 : 0 < opts.progress.getD 1 * pl.distance
        · obtain ⟨pr, hpr⟩ := Option.isSome_iff_exists.mp (hwalk h1)
          simp [generateTubeVertexDataRect, h0, h1, hpr]
        · simp [generateTubeVertexDataRect, h0, h1]
    · by_cases h0 : opts.progress.getD 1 * pl.distance = 0
      · simp [generateTubeVertexDataRectA, h0]
      · by_cases h1 : 0 < opts.progress.getD 1 * pl.distance
        · obtain ⟨pr, hpr⟩ := Option.isSome_iff_exists.mp (hwalk h1)
          simp [generateTubeVertexDataRectA, h0, h1, hpr]
        · simp [generateTubeVertexDataRectA, h0, h1]

/-- C10 witness: the straight fixture with `progress = -1`. -/
theorem c10_witness :
    ((⟨none, some (-1), none, none, none, none, none, none⟩ : JsOptions ℚ).progress
        = some (-1)) ∧
    ((-1 : ℚ) < 0) ∧ (0 : ℚ) < straightList.distance ∧
    generateTubeVertexDataRect ratOps straightList
      ⟨none, some (-1), none, none, none, none, none, none⟩ false =
        EmitResult.data EmitState.init :=
  ⟨rfl, by decide, by decide,
    ((c10_negative_progress ratOps).1 straightList
      ⟨none, some (-1), none, none, none, none, none, none⟩ false (-1)
      rfl (by decide) (by decide)).2.1⟩

/-! ## Claim C1: the visible drawRange.count after update -/

/-- Fold preservation of an invariant. -/
theorem foldl_preserve {α σ : Type _} (P : σ → Prop) (f : σ → α → σ)
    (h : ∀ s a, P s → P (f s a)) :
    ∀ (l : List α) (s : σ), P s → P (l.foldl f s) := by
  intro l
  induction l with
  | nil => intro s hs; exact hs
  | cons a t ih => intro s hs; exact ih _ (h s a hs)

/-- Each ribbon ring keeps `count` equal to the number of emitted indices
(12/12 at a miter fan, 6/6 at a connected plain ring, 0/0 at the first). -/
theorem ribbonAddVertices_count_idx (ops : ScalarOps K) (ctx : RibbonCtx K)
    (st : EmitState K) (p : PathPoint K) (h : st.count = st.indices.length) :
    (ribbonAddVertices ops ctx st p).count =
      (ribbonAddVertices ops ctx st p).indices.length := by
  simp only [ribbonAddVertices]
  split_ifs <;> simp [h]

/-- The arrow head adds 3 to both `count` and the index list. -/
theorem ribbonAddStart_count_idx (ops : ScalarOps K) (ctx : RibbonCtx K)
    (st : EmitState K) (p : PathPoint K) (h : st.count = st.indices.length) :
    (ribbonAddStart ops ctx st p).count =
      (ribbonAddStart ops ctx st p).indices.length := by
  simp [ribbonAddStart, h]

/-- The quad-strip index step adds 6 to both `count` and the index list. -/
theorem quadStripStep_count_idx (begin1 begin2 : ℕ) (s : EmitState K) (i : ℕ)
    (h : s.count = s.indices.length) :
    (quadStripStep begin1 begin2 s i).count =
      (quadStripStep begin1 begin2 s i).indices.length := by
  simp [quadStripStep, h]

/-- A ring vertex of the circular tube touches neither `count` nor the index
list. -/
theorem tubeRingVertex_count_idx (ops : ScalarOps K)
    (circum totalDistance startRad : K) (g2 : Bool) (radius : K)
    (radialSegments : ℕ) (p : PathPoint K) (s : EmitState K) (r : ℕ)
    (h : s.count = s.indices.length) :
    (tubeRingVertex ops circum totalDistance startRad g2 radius radialSegments p s r).count =
      (tubeRingVertex ops circum totalDistance startRad g2 radius radialSegments p s r).indices.length := by
  simpa [tubeRingVertex] using h

/-- A circular-tube ring keeps `count` equal to the emitted index count. -/
theorem tubeAddVertices_count_idx (ops : ScalarOps K)
    (circum totalDistance startRad : K) (g2 : Bool) (radius : K)
    (radialSegments : ℕ) (st : EmitState K) (p : PathPoint K)
    (h : st.count = st.indices.length) :
    (tubeAddVertices ops circum totalDistance startRad g2 radius radialSegments st p).count =
      (tubeAddVertices ops circum totalDistance startRad g2 radius radialSegments st p).indices.length := by
  simp only [tubeAddVertices]
  have h1 := foldl_preserve (fun s : EmitState K => s.count = s.indices.length)
    (tubeRingVertex ops circum totalDistance startRad g2 radius radialSegments p)
    (fun s r hs => tubeRingVertex_count_idx ops circum totalDistance startRad g2
      radius radialSegments p s r hs)
    (List.range (radialSegments + 1)) st h
  split
  · exact foldl_preserve (fun s : EmitState K => s.count = s.indices.length)
      (quadStripStep _ _) (fun s i hs => quadStripStep_count_idx _ _ s i hs)
      (List.range radialSegments) _ h1
  · exact h1

/-- A ring vertex of the 5-vertex rectangular generator touches neither
`count` nor the index list. -/
theorem rectARingVertex_count_idx (ops : ScalarOps K) (circum totalDistance : K)
    (g2 : Bool) (width height : K) (p : PathPoint K) (acc : EmitState K × K) (r : ℕ)
    (h : acc.1.count = acc.1.indices.length) :
    (rectARingVertex ops circum totalDistance g2 width height p acc r).1.count =
      (rectARingVertex ops circum totalDistance g2 width height p acc r).1.indices.length := by
  simpa [rectARingVertex] using h

/-- A 5-vertex rectangular ring keeps `count` equal to the emitted index
count. -/
theorem rectAAddVertices_count_idx (ops : ScalarOps K) (circum totalDistance : K)
    (g2 : Bool) (width height : K) (st : EmitState K) (p : PathPoint K)
    (h : st.count = st.indices.length) :
    (rectAAddVertices ops circum totalDistance g2 width height st p).count =
      (rectAAddVertices ops circum totalDistance g2 width height st p).indices.length := by
  simp only [rectAAddVertices]
  have h1 := foldl_preserve (fun acc : EmitState K × K => acc.1.count = acc.1.indices.length)
    (rectARingVertex ops circum totalDistance g2 width height p)
    (fun acc r hs => rectARingVertex_count_idx ops circum totalDistance g2
      width height p acc r hs)
    (List.range 5) (st, 0) h
  split
  · exact foldl_preserve (fun s : EmitState K => s.count = s.indices.length)
      (quadStripStep _ _) (fun s i hs => quadStripStep_count_idx _ _ s i hs)
      (List.range 4) _ h1
  · exact h1

/-- An 8-vertex rectangular ring adds 8 to `count` and 24 position floats, so
`count` tracks the emitted vertex count. -/
theorem rectBAddVertices_count_pos (ops : ScalarOps K)
    (totalDistance width height halfWidth halfHeight sideTotalDis : K)
    (st : EmitState K) (p : PathPoint K)
    (h : st.position.length = 3 * st.count) :
    (rectBAddVertices ops totalDistance width height halfWidth halfHeight sideTotalDis st p).position.length =
      3 * (rectBAddVertices ops totalDistance width height halfWidth halfHeight sideTotalDis st p).count := by
  simp [rectBAddVertices, h]
  ring

/-- The ribbon emitter's data objects have `count` equal to the number of
emitted indices. -/
theorem ribbon_data_count_idx (ops : ScalarOps K) (pl : PathPointList K)
    (opts : JsOptions K) (g2 : Bool) (vd : EmitState K)
    (h : generatePathVertexData ops pl opts g2 = EmitResult.data vd) :
    vd.count = vd.indices.length := by
  have hfold : ∀ (ctx : RibbonCtx K) (l : List (PathPoint K)),
      (l.foldl (ribbonAddVertices ops ctx) EmitState.init).count =
        (l.foldl (ribbonAddVertices ops ctx) EmitState.init).indices.length :=
    fun ctx l => foldl_preserve (fun s : EmitState K => s.count = s.indices.length)
      (ribbonAddVertices ops ctx)
      (fun s p hs => ribbonAddVertices_count_idx ops ctx s p hs) l EmitState.init rfl
  simp only [generatePathVertexData] at h
  split at h
  · exact absurd h (by simp)
  · split at h
    · split at h
      · exact absurd h (by simp)
      · split at h
        · split at h
          · simp only [EmitResult.data.injEq] at h
            subst h
            exact ribbonAddStart_count_idx ops _ _ _ (hfold _ _)
          · split at h
            · exact absurd h (by simp)
            · exact absurd h (by simp)
            · simp only [EmitResult.data.injEq] at h
              subst h
              exact ribbonAddStart_count_idx ops _ _ _ (hfold _ _)
        · simp only [EmitResult.data.injEq] at h
          subst h
          exact hfold _ _
    · split at h
      · split at h
        · exact absurd h (by simp)
        · simp only [EmitResult.data.injEq] at h
          subst h
          exact ribbonAddStart_count_idx ops _ _ _ rfl
      · simp only [EmitResult.data.injEq] at h
        subst h
        rfl

/-- The circular-tube emitter's data objects have `count` equal to the number
of emitted indices. -/
theorem tube_data_count_idx (ops : ScalarOps K) (pl : PathPointList K)
    (opts : JsOptions K) (g2 : Bool) (vd : EmitState K)
    (h : generateTubeVertexData1 ops pl opts g2 = EmitResult.data vd) :
    vd.count = vd.indices.length := by
  simp only [generateTubeVertexData1] at h
  split at h
  · exact absurd h (by simp)
  · split at h
    · split at h
      · exact absurd h (by simp)
      · simp only [EmitResult.data.injEq] at h
        subst h
        exact foldl_preserve (fun s : EmitState K => s.count = s.indices.length)
          (tubeAddVertices ops _ _ _ g2 _ _)
          (fun s p hs => tubeAddVertices_count_idx ops _ _ _ g2 _ _ s p hs)
          _ EmitState.init rfl
    · simp only [EmitResult.data.injEq] at h
      subst h
      rfl

/-- The 5-vertex rectangular emitter's data objects have `count` equal to the
number of emitted indices. -/
theorem rectA_data_count_idx (ops : ScalarOps K) (pl : PathPointList K)
    (opts : JsOptions K) (g2 : Bool) (vd : EmitState K)
    (h : generateTubeVertexDataRectA ops pl opts g2 = EmitResult.data vd) :
    vd.count = vd.indices.length := by
  simp only [generateTubeVertexDataRectA] at h
  split at h
  · exact absurd h (by simp)
  · split at h
    · split at h
      · exact absurd h (by simp)
      · simp only [EmitResult.data.injEq] at h
        subst h
        exact foldl_preserve (fun s : EmitState K => s.count = s.indices.length)
          (rectAAddVertices ops _ _ g2 _ _)
          (fun s p hs => rectAAddVertices_count_idx ops _ _ g2 _ _ s p hs)
          _ EmitState.init rfl
    · simp only [EmitResult.data.injEq] at h
      subst h
      rfl

/-- The 8-vertex rectangular emitter's data objects have `count` equal to the
number of emitted vertices (`position` holds 3 floats per vertex). -/
theorem rectB_data_count_pos (ops : ScalarOps K) (pl : PathPointList K)
    (opts : JsOptions K) (g2 : Bool) (vd : EmitState K)
    (h : generateTubeVertexDataRect ops pl opts g2 = EmitResult.data vd) :
    vd.position.length = 3 * vd.count := by
  simp only [generateTubeVertexDataRect] at h
  split at h
  · exact absurd h (by simp)
  · split at h
    · exact absurd h (by simp)
    · rename_i st hcore
      simp only [EmitResult.data.injEq] at h
      subst h
      simp only
      split at hcore
      · cases he : truncGo (opts.progress.getD 1 * pl.distance) pl.array pl.count none with
        | none => rw [he] at hcore; simp at hcore
        | some pr =>
          rw [he] at hcore
          simp only [Option.map_some'] at hcore
          cases hcore
          exact foldl_preserve (fun s : EmitState K => s.position.length = 3 * s.count)
            (rectBAddVertices ops _ _ _ _ _ _)
            (fun s p hs => rectBAddVertices_count_pos ops _ _ _ _ _ _ s p hs)
            _ EmitState.init rfl
      · cases hcore
        rfl

/-- C1 counterexample: after a ribbon update on a straight two-sample path
(defaults, no arrow), the geometry's `drawRange.count` is 6 — the emitted
index count — while the emitter wrote only 4 vertices. -/
theorem c1_ribbon_drawrange_counterexample :
    pathUpdateDrawRange ratOps straightList
      ⟨none, none, some false, none, none, none, none, none⟩ false = some 6 ∧
    vertexCountOf (generatePathVertexData ratOps straightList
      ⟨none, none, some false, none, none, none, none, none⟩ false) = some 4 ∧
    pathUpdateDrawRange ratOps straightList
      ⟨none, none, some false, none, none, none, none, none⟩ false ≠
      vertexCountOf (generatePathVertexData ratOps straightList
        ⟨none, none, some false, none, none, none, none, none⟩ false) := by
  refine ⟨by decide, by decide, by decide⟩

/-- C1 (amended): every `update` sets the visible `drawRange.count` to the
`count` field of the emitted data (0 when the emitter produced nothing); that
field is the emitted index count for the ribbon, circular-tube and 5-vertex
rectangular emitters, and the emitted vertex count for the 8-vertex
rectangular emitter. -/
theorem c1_drawrange_count (ops : ScalarOps K) (pl : PathPointList K)
    (opts : JsOptions K) (g2 : Bool) :
    (∀ vd : EmitState K, generatePathVertexData ops pl opts g2 = EmitResult.data vd →
      pathUpdateDrawRange ops pl opts g2 = some vd.count ∧ vd.count = vd.indices.length) ∧
    (generatePathVertexData ops pl opts g2 = EmitResult.null →
      pathUpdateDrawRange ops pl opts g2 = some 0) ∧
    (∀ vd : EmitState K, generateTubeVertexData1 ops pl opts g2 = EmitResult.data vd →
      tubeUpdateDrawRange ops pl opts g2 = some vd.count ∧ vd.count = vd.indices.length) ∧
    (generateTubeVertexData1 ops pl opts g2 = EmitResult.null →
      tubeUpdateDrawRange ops pl opts g2 = some 0) ∧
    (∀ vd : EmitState K, generateTubeVertexDataRectA ops pl opts g2 = EmitResult.data vd →
      rectAUpdateDrawRange ops pl opts g2 = some vd.count ∧ vd.count = vd.indices.length) ∧
    (generateTubeVertexDataRectA ops pl opts g2 = EmitResult.null →
      rectAUpdateDrawRange ops pl opts g2 = some 0) ∧
    (∀ vd : EmitState K, generateTubeVertexDataRect ops pl opts g2 = EmitResult.data vd →
      rectUpdateDrawRange ops pl opts g2 = some vd.count ∧ vd.position.length = 3 * vd.count) ∧
    (generateTubeVertexDataRect ops pl opts g2 = EmitResult.null →
      rectUpdateDrawRange ops pl opts g2 = some 0) := by
  refine ⟨?_, ?_, ?_, ?_, ?_, ?_, ?_, ?_⟩
  · intro vd h
    exact ⟨by simp [pathUpdateDrawRange, drawRangeOf, h],
      ribbon_data_count_idx ops pl opts g2 vd h⟩
  · intro h; simp [pathUpdateDrawRange, drawRangeOf, h]
  · intro vd h
    exact ⟨by simp [tubeUpdateDrawRange, drawRangeOf, h],
      tube_data_count_idx ops pl opts g2 vd h⟩
  · intro h; simp [tubeUpdateDrawRange, drawRangeOf, h]
  · intro vd h
    exact ⟨by simp [rectAUpdateDrawRange, drawRangeOf, h],
      rectA_data_count_idx ops pl opts g2 vd h⟩
  · intro h; simp [rectAUpdateDrawRange, drawRangeOf, h]
  · intro vd h
    exact ⟨by simp [rectUpdateDrawRange, drawRangeOf, h],
      rectB_data_count_pos ops pl opts g2 vd h⟩
  · intro h; simp [rectUpdateDrawRange, drawRangeOf, h]

/-- C1 witness: an empty path list produces `null` and the update sets the
visible draw range to 0. -/
theorem c1_witness :
    generatePathVertexData ratOps (PathPointList.ofList []) JsOptions.empty false =
      EmitResult.null ∧
    pathUpdateDrawRange ratOps (PathPointList.ofList []) JsOptions.empty false = some 0 :=
  ⟨by decide,
    (c1_drawrange_count ratOps (PathPointList.ofList []) JsOptions.empty false).2.1
      (by decide)⟩

/-! ## Claim C3: the progressive-truncation walk -/

/-- In a `dist`-monotone list, every element is at least the head. -/
theorem chain'_dist_le_of_mem :
    ∀ (p : PathPoint K) (t : List (PathPoint K)),
      List.Chain' (fun a b : PathPoint K => a.dist ≤ b.dist) (p :: t) →
      ∀ x ∈ t, p.dist ≤ x.dist := by
  intro p t
  induction t generalizing p with
  | nil => intro _ x hx; simp at hx
  | cons q r ih =>
    intro h x hx
    rw [List.chain'_cons] at h
    rcases List.mem_cons.mp hx with rfl | hx'
    · exact h.1
    · exact le_trans h.1 (ih q h.2 x hx')

/-- `getLastD` of a nonempty list does not depend on the default. -/
theorem getLastD_ne_default {α : Type _} :
    ∀ (l : List α), l ≠ [] → ∀ d d' : α, l.getLastD d = l.getLastD d' := by
  intro l
  induction l with
  | nil => intro h; exact absurd rfl h
  | cons a t ih =>
    intro _ d d'
    cases t with
    | nil => rfl
    | cons b r => simpa using ih (by simp) d d'

/-- `getLastD` over a cons with a nonempty tail. -/
theorem getLastD_cons_of_ne {α : Type _} (a : α) (l : List α) (h : l ≠ []) (d : α) :
    (a :: l).getLastD d = l.getLastD d := by
  rw [List.getLastD_cons]
  exact getLastD_ne_default l h a d

/-- The walk after its first step: with the previous sample in hand, it emits
the prefix of samples not exceeding `pd` and stops at the first exceeding one
with the synthesized lerp sample. -/
theorem truncGo_tail_spec (pd : K) :
    ∀ (rest : List (PathPoint K)) (prev : PathPoint K),
      List.Chain' (fun a b : PathPoint K => a.dist ≤ b.dist) (prev :: rest) →
      rest ≠ [] →
      pd < (rest.getLastD PathPoint.new).dist →
      ∃ j, j < rest.length ∧
        (∀ k, k < j → ((rest.getD k PathPoint.new).dist ≤ pd)) ∧
        pd < (rest.getD j PathPoint.new).dist ∧
        rest.take j = rest.filter (fun x => decide (x.dist ≤ pd)) ∧
        truncGo pd rest rest.length (some prev) =
          some (rest.take j ++
              [truncLerp pd ((prev :: rest).getD j PathPoint.new) (rest.getD j PathPoint.new)],
            some (truncLerp pd ((prev :: rest).getD j PathPoint.new) (rest.getD j PathPoint.new))) := by
  intro rest
  induction rest with
  | nil => intro prev _ hne; exact absurd rfl hne
  | cons p1 rest' ih =>
    intro prev hchain _ hlast
    rw [List.chain'_cons] at hchain
    by_cases hd : pd < p1.dist
    · refine ⟨0, by simp, by omega, by simpa using hd, ?_, ?_⟩
      · have hall : ∀ x ∈ p1 :: rest', ¬ (x.dist ≤ pd) := by
          intro x hx
          rcases List.mem_cons.mp hx with rfl | hx'
          · exact not_le_of_lt hd
          · exact not_le_of_lt (lt_of_lt_of_le hd (chain'_dist_le_of_mem p1 rest' hchain.2 x hx'))
        simp only [List.take_zero]
        symm
        rw [List.filter_eq_nil_iff]
        intro x hx
        simpa using hall x hx
      · rw [truncGo.eq_def]
        simp [hd]
    · have hrest' : rest' ≠ [] := by
        intro hnil
        subst hnil
        exact hd (by simpa using hlast)
      have hlast' : pd < (rest'.getLastD PathPoint.new).dist := by
        rw [getLastD_cons_of_ne p1 rest' hrest' PathPoint.new] at hlast
        exact hlast
      obtain ⟨j', hj'len, hj'pre, hj'exc, hj'filt, hj'go⟩ := ih p1 hchain.2 hrest' hlast'
      refine ⟨j' + 1, by simpa using Nat.succ_lt_succ hj'len, ?_, by simpa using hj'exc, ?_, ?_⟩
      · intro k hk
        cases k with
        | zero => simpa using not_lt.mp hd
        | succ k' => simpa using hj'pre k' (by omega)
      · have hp1 : p1.dist ≤ pd := not_lt.mp hd
        simp [List.filter_cons, hp1, ← hj'filt]
      · rw [truncGo.eq_def]
        simp only [List.length_cons]
        rw [if_neg hd]
        rw [hj'go]
        simp [List.getD_cons_succ]

/-- C3: for every `dist`-monotone frame sequence starting at distance 0 with
positive total distance, and every `progress` strictly between 0 and 1, the
shared truncation walk (invoked by all four generators with
`pd = progress × totalDistance`) emits exactly one ring sample per stored
sample whose `dist ≤ pd` — equivalently, the prefix before the first
exceeding sample — then exactly one synthesized sample obtained by
`lerpPathPoints` between the previous sample and the first exceeding sample at
`alpha = (pd − prevDist) / (dist − prevDist)`, and stops. -/
theorem c3_progress_truncation (arr : List (PathPoint K)) (progress : K)
    (hne : arr ≠ [])
    (hchain : List.Chain' (fun a b : PathPoint K => a.dist ≤ b.dist) arr)
    (hhead : (arr.headD PathPoint.new).dist = 0)
    (htot : 0 < (arr.getLastD PathPoint.new).dist)
    (hp0 : 0 < progress) (hp1 : progress < 1) :
    ∃ j, 0 < j ∧ j < arr.length ∧
      (∀ k, k < j →
        ((arr.getD k PathPoint.new).dist ≤ progress * (arr.getLastD PathPoint.new).dist)) ∧
      progress * (arr.getLastD PathPoint.new).dist < (arr.getD j PathPoint.new).dist ∧
      arr.take j = arr.filter
        (fun x => decide (x.dist ≤ progress * (arr.getLastD PathPoint.new).dist)) ∧
      truncGo (progress * (arr.getLastD PathPoint.new).dist) arr arr.length none =
        some (arr.take j ++
            [truncLerp (progress * (arr.getLastD PathPoint.new).dist)
              (arr.getD (j - 1) PathPoint.new) (arr.getD j PathPoint.new)],
          some (truncLerp (progress * (arr.getLastD PathPoint.new).dist)
            (arr.getD (j - 1) PathPoint.new) (arr.getD j PathPoint.new))) := by
  cases arr with
  | nil => exact absurd rfl hne
  | cons p0 rest =>
    set total : K := ((p0 :: rest).getLastD PathPoint.new).dist with htotal
    set pd : K := progress * total with hpd
    have hpdpos : 0 < pd := mul_pos hp0 htot
    have hpdlt : pd < total := by
      calc pd = progress * total := hpd
        _ < 1 * total := mul_lt_mul_of_pos_right hp1 htot
        _ = total := one_mul total
    have hp0pd : p0.dist ≤ pd := by
      have : p0.dist = 0 := by simpa using hhead
      rw [this]; exact le_of_lt hpdpos
    have hrest : rest ≠ [] := by
      intro hnil
      subst hnil
      have h0 : total = p0.dist := rfl
      have h1 : p0.dist = 0 := by simpa using hhead
      rw [h0, h1] at hpdlt
      exact absurd (lt_trans hpdpos hpdlt) (lt_irrefl 0)
    have hlast' : pd < (rest.getLastD PathPoint.new).dist := by
      calc pd < total := hpdlt
        _ = (rest.getLastD PathPoint.new).dist := by
          rw [htotal, getLastD_cons_of_ne p0 rest hrest PathPoint.new]
    obtain ⟨j', hj'len, hj'pre, hj'exc, hj'filt, hj'go⟩ :=
      truncGo_tail_spec pd rest p0 hchain hrest hlast'
    refine ⟨j' + 1, Nat.succ_pos j', by simpa using Nat.succ_lt_succ hj'len, ?_, ?_, ?_, ?_⟩
    · intro k hk
      cases k with
      | zero => simpa using hp0pd
      | succ k' => simpa using hj'pre k' (by omega)
    · simpa using hj'exc
    · simp [List.filter_cons, hp0pd, ← hj'filt]
    · rw [truncGo.eq_def]
      simp only [List.length_cons]
      rw [if_neg (not_lt.mpr hp0pd)]
      rw [hj'go]
      simp [List.getD_cons_succ]

/-- C3 witness: on the straight fixture (dists 0 and 10) with
`progress = 1/2`, the walk truncates after the first sample at a synthesized
sample interpolated halfway, at distance 5. -/
theorem c3_witness :
    ([flatSample0, flatSample10] ≠ []) ∧
    (truncLerp ((1 : ℚ) / 2 * 10) flatSample0 flatSample10).dist = 5 ∧
    (∃ j, 0 < j ∧ j < 2 ∧
      (∀ k, k < j →
        (([flatSample0, flatSample10].getD k PathPoint.new).dist ≤
          1 / 2 * (([flatSample0, flatSample10].getLastD PathPoint.new).dist))) ∧
      1 / 2 * (([flatSample0, flatSample10].getLastD PathPoint.new).dist) <
        ([flatSample0, flatSample10].getD j PathPoint.new).dist ∧
      [flatSample0, flatSample10].take j = [flatSample0, flatSample10].filter
        (fun x => decide (x.dist ≤ 1 / 2 * (([flatSample0, flatSample10].getLastD PathPoint.new).dist))) ∧
      truncGo (1 / 2 * (([flatSample0, flatSample10].getLastD PathPoint.new).dist))
          [flatSample0, flatSample10] 2 none =
        some ([flatSample0, flatSample10].take j ++
            [truncLerp (1 / 2 * (([flatSample0, flatSample10].getLastD PathPoint.new).dist))
              ([flatSample0, flatSample10].getD (j - 1) PathPoint.new)
              ([flatSample0, flatSample10].getD j PathPoint.new)],
          some (truncLerp (1 / 2 * (([flatSample0, flatSample10].getLastD PathPoint.new).dist))
            ([flatSample0, flatSample10].getD (j - 1) PathPoint.new)
            ([flatSample0, flatSample10].getD j PathPoint.new)))) :=
  ⟨by decide, by decide,
    c3_progress_truncation [flatSample0, flatSample10] (1 / 2)
      (by decide) (List.chain'_cons.mpr ⟨by decide, List.chain'_singleton _⟩)
      (by decide) (by decide) (by decide) (by decide)⟩

/-- C9 witness: the straight fixture truncated at distance 5. -/
theorem c9_witness :
    truncGo (5 : ℚ) [flatSample0, flatSample10] 2 none =
      some ([flatSample0, truncLerp 5 flatSample0 flatSample10],
        some (truncLerp 5 flatSample0 flatSample10)) ∧
    (truncLerp (5 : ℚ) flatSample0 flatSample10).sharp = false :=
  ⟨by decide,
    (c9_truncation_ring_plain ratOps).2.2 5 [flatSample0, flatSample10] 2 none
      [flatSample0, truncLerp 5 flatSample0 flatSample10]
      (truncLerp 5 flatSample0 flatSample10) (by decide)⟩

/-! ## Claims C7 and C8: the frame builder's distance and closed-seam
behaviour -/

/-- `lastD` of a one-step extension. -/
theorem lastD_concat (st : List (PathPoint K)) (p : PathPoint K) :
    lastD (st ++ [p]) = p := by
  simp [lastD]

/-- `getLast?` of a nonempty builder state is its `lastD`. -/
theorem getLast?_eq_lastD :
    ∀ (st : List (PathPoint K)), st ≠ [] → st.getLast? = some (lastD st) := by
  intro st
  induction st with
  | nil => intro h; exact absurd rfl h
  | cons a t ih =>
    intro _
    cases t with
    | nil => rfl
    | cons b r =>
      rw [List.getLast?_cons_cons, ih (by simp)]
      unfold lastD
      rw [getLastD_cons_of_ne a (b :: r) (by simp) PathPoint.new]

/-- The last sample of a nonempty builder state is a member. -/
theorem lastD_mem : ∀ (st : List (PathPoint K)), st ≠ [] → lastD st ∈ st := by
  intro st
  induction st with
  | nil => intro h; exact absurd rfl h
  | cons a t ih =>
    intro _
    cases t with
    | nil => simp [lastD]
    | cons b r =>
      unfold lastD
      rw [getLastD_cons_of_ne a (b :: r) (by simp) PathPoint.new]
      exact List.mem_cons_of_mem a (ih (by simp))

/-- Appending one sample whose `dist` extends the last preserves the
distance invariants (nonemptiness, monotone `dist`, nonnegative `dist`,
first `dist` 0). -/
theorem append_sample_inv (st : List (PathPoint K)) (q : PathPoint K)
    (hne : st ≠ [])
    (hch : List.Chain' (fun a b : PathPoint K => a.dist ≤ b.dist) st)
    (hnn : ∀ p ∈ st, 0 ≤ p.dist)
    (hh0 : (st.headD PathPoint.new).dist = 0)
    (hstep : (lastD st).dist ≤ q.dist) :
    st ++ [q] ≠ [] ∧
    List.Chain' (fun a b : PathPoint K => a.dist ≤ b.dist) (st ++ [q]) ∧
    (∀ p ∈ st ++ [q], 0 ≤ p.dist) ∧
    ((st ++ [q]).headD PathPoint.new).dist = 0 := by
  refine ⟨by simp, ?_, ?_, ?_⟩
  · refine List.Chain'.append hch (List.chain'_singleton q) ?_
    intro x hx y hy
    rw [getLast?_eq_lastD st hne] at hx
    simp only [Option.mem_def, Option.some.injEq] at hx
    simp only [List.head?_cons, Option.mem_def, Option.some.injEq] at hy
    subst hx; subst hy
    exact hstep
  · intro p hp
    rcases List.mem_append.mp hp with hp' | hp'
    · exact hnn p hp'
    · have : p = q := by simpa using hp'
      subst this
      exact le_trans (hnn _ (lastD_mem st hne)) hstep
  · cases st with
    | nil => exact absurd rfl hne
    | cons a t => simpa using hh0

/-- A `_sharpCorner` sample extends the last distance by a square root. -/
theorem sharpCornerPoint_dist (ops : ScalarOps K) (lastPoint : PathPoint K)
    (current next : Vec3 K) (upOpt : Option (Vec3 K)) (dirType : ℕ) (sharp : Bool) :
    (sharpCornerPoint ops lastPoint current next upOpt dirType sharp).dist =
      lastPoint.dist + (Vec3.subV current lastPoint.pos).length ops := rfl

/-- A `_sharpCorner` sample is placed at `current`. -/
theorem sharpCornerPoint_pos (ops : ScalarOps K) (lastPoint : PathPoint K)
    (current next : Vec3 K) (upOpt : Option (Vec3 K)) (dirType : ℕ) (sharp : Bool) :
    (sharpCornerPoint ops lastPoint current next upOpt dirType sharp).pos = current := rfl

/-- An `_end` sample extends the last distance by a square root. -/
theorem endPoint_dist (ops : ScalarOps K) (lastPoint : PathPoint K) (current : Vec3 K) :
    (endPoint ops lastPoint current).dist =
      lastPoint.dist + (Vec3.subV current lastPoint.pos).length ops := rfl

/-- Applying any chain of `_sharpCorner` steps preserves the distance
invariants. -/
theorem applySteps_dist_inv (ops : ScalarOps K) (hsq : ∀ x : K, 0 ≤ ops.sqrt x)
    (upOpt : Option (Vec3 K)) :
    ∀ (steps : List (SharpStep K)) (st : List (PathPoint K)),
      st ≠ [] →
      List.Chain' (fun a b : PathPoint K => a.dist ≤ b.dist) st →
      (∀ p ∈ st, 0 ≤ p.dist) →
      (st.headD PathPoint.new).dist = 0 →
      (applySteps ops upOpt st steps ≠ [] ∧
       List.Chain' (fun a b : PathPoint K => a.dist ≤ b.dist) (applySteps ops upOpt st steps) ∧
       (∀ p ∈ applySteps ops upOpt st steps, 0 ≤ p.dist) ∧
       ((applySteps ops upOpt st steps).headD PathPoint.new).dist = 0) := by
  intro steps
  induction steps with
  | nil => intro st h1 h2 h3 h4; exact ⟨h1, h2, h3, h4⟩
  | cons s rest ih =>
    intro st h1 h2 h3 h4
    have hstep : (lastD st).dist ≤
        (sharpCornerPoint ops (lastD st) s.1 s.2.1 upOpt s.2.2.1 s.2.2.2).dist := by
      rw [sharpCornerPoint_dist]
      have := hsq (Vec3.subV s.1 (lastD st).pos).lengthSq
      simp only [Vec3.length]
      linarith
    obtain ⟨g1, g2, g3, g4⟩ := append_sample_inv st _ h1 h2 h3 h4 hstep
    simpa [applySteps, applyStep] using ih _ g1 g2 g3 g4

/-- `closeFix` preserves the distance invariants. -/
theorem closeFix_dist_inv (st : List (PathPoint K))
    (hne : st ≠ [])
    (hch : List.Chain' (fun a b : PathPoint K => a.dist ≤ b.dist) st)
    (hnn : ∀ p ∈ st, 0 ≤ p.dist)
    (hh0 : (st.headD PathPoint.new).dist = 0) :
    closeFix st ≠ [] ∧
    List.Chain' (fun a b : PathPoint K => a.dist ≤ b.dist) (closeFix st) ∧
    (∀ p ∈ closeFix st, 0 ≤ p.dist) ∧
    ((closeFix st).headD PathPoint.new).dist = 0 := by
  cases st with
  | nil => exact absurd rfl hne
  | cons p0 rest =>
    have hd0 : p0.dist = 0 := by simpa using hh0
    refine ⟨by simp [closeFix], ?_, ?_, by simp [closeFix, PathPoint.copyFrom, hd0]⟩
    · cases rest with
      | nil => simp [closeFix]
      | cons b r =>
        rw [List.chain'_cons] at hch
        refine List.chain'_cons.mpr ⟨?_, hch.2⟩
        simp only [closeFix, PathPoint.copyFrom]
        rw [hd0]
        exact hnn b (by simp)
    · intro p hp
      simp only [closeFix] at hp
      rcases List.mem_cons.mp hp with rfl | hp'
      · simpa [PathPoint.copyFrom, hd0] using le_refl (0 : K)
      · exact hnn p (List.mem_cons_of_mem p0 hp')

/-- The loop of `set` preserves the distance invariants. -/
theorem buildRest_dist_inv (ops : ScalarOps K) (hsq : ∀ x : K, 0 ≤ ops.sqrt x)
    (cornerRadius : K) (cornerSplit : ℕ) (upOpt : Option (Vec3 K)) (close : Bool)
    (secondPt : Vec3 K) :
    ∀ (rem : List (Vec3 K)) (cur : Vec3 K) (st : List (PathPoint K)),
      st ≠ [] →
      List.Chain' (fun a b : PathPoint K => a.dist ≤ b.dist) st →
      (∀ p ∈ st, 0 ≤ p.dist) →
      (st.headD PathPoint.new).dist = 0 →
      (buildRest ops cornerRadius cornerSplit upOpt close secondPt rem cur st ≠ [] ∧
       List.Chain' (fun a b : PathPoint K => a.dist ≤ b.dist)
         (buildRest ops cornerRadius cornerSplit upOpt close secondPt rem cur st) ∧
       (∀ p ∈ buildRest ops cornerRadius cornerSplit upOpt close secondPt rem cur st,
         0 ≤ p.dist) ∧
       ((buildRest ops cornerRadius cornerSplit upOpt close secondPt rem cur st).headD
         PathPoint.new).dist = 0) := by
  intro rem
  induction rem with
  | nil =>
    intro cur st h1 h2 h3 h4
    simp only [buildRest]
    cases close with
    | true =>
      rw [if_pos rfl]
      obtain ⟨g1, g2, g3, g4⟩ := applySteps_dist_inv ops hsq upOpt _ st h1 h2 h3 h4
      exact closeFix_dist_inv _ g1 g2 g3 g4
    | false =>
      rw [if_neg (by simp)]
      have hstep : (lastD st).dist ≤ (endPoint ops (lastD st) cur).dist := by
        rw [endPoint_dist]
        have := hsq (Vec3.subV cur (lastD st).pos).lengthSq
        simp only [Vec3.length]
        linarith
      exact append_sample_inv st _ h1 h2 h3 h4 hstep
  | cons nxt rem' ih =>
    intro cur st h1 h2 h3 h4
    simp only [buildRest]
    obtain ⟨g1, g2, g3, g4⟩ := applySteps_dist_inv ops hsq upOpt _ st h1 h2 h3 h4
    exact ih nxt _ g1 g2 g3 g4

/-- `pairwiseDist` over a two-step head. -/
theorem pairwiseDist_cons (ops : ScalarOps K) (a b : Vec3 K) (l : List (Vec3 K)) :
    pairwiseDist ops (a :: b :: l) =
      (Vec3.subV b a).length ops + pairwiseDist ops (b :: l) := by
  simp [pairwiseDist]

/-- With rounding disabled and an open path, the loop accumulates exactly the
pairwise deltas. -/
theorem buildRest_dist_sum (ops : ScalarOps K) (cornerRadius : K) (cornerSplit : ℕ)
    (upOpt : Option (Vec3 K)) (secondPt : Vec3 K)
    (hznd : ¬(0 < cornerRadius ∧ 0 < cornerSplit)) :
    ∀ (rem : List (Vec3 K)) (cur : Vec3 K) (st : List (PathPoint K)),
      (lastD (buildRest ops cornerRadius cornerSplit upOpt false secondPt rem cur st)).dist =
        (lastD st).dist + (Vec3.subV cur (lastD st).pos).length ops +
          pairwiseDist ops (cur :: rem) := by
  intro rem
  induction rem with
  | nil =>
    intro cur st
    simp only [buildRest, if_false, Bool.false_eq_true]
    rw [lastD_concat, endPoint_dist]
    simp [pairwiseDist]
  | cons nxt rem' ih =>
    intro cur st
    simp only [buildRest]
    rw [ih nxt _]
    have hca : cornerAppend ops cornerRadius cornerSplit upOpt st cur nxt =
        st ++ [sharpCornerPoint ops (lastD st) cur nxt upOpt 0 true] := by
      simp [cornerAppend, cornerSteps, hznd, applySteps, applyStep]
    rw [hca, lastD_concat, sharpCornerPoint_dist, sharpCornerPoint_pos,
      pairwiseDist_cons]
    ring

/-- C7: for every frame sequence produced by `PathPointList.set` (with a
square-root routine that is nonnegative, as `Math.sqrt` is), the first stored
sample's `dist` is 0, `dist` is monotonically non-decreasing along the
sequence, `distance()` returns the last sample's `dist` (or 0 when the
sequence is empty), and for an open path built with rounding disabled
`distance()` equals the sum of the lengths of the consecutive key-point
deltas. -/
theorem c7_distance_properties (ops : ScalarOps K) (hsq : ∀ x : K, 0 ≤ ops.sqrt x)
    (points : List (Vec3 K)) (cornerRadius : K) (cornerSplit : ℕ)
    (upOpt : Option (Vec3 K)) (close : Bool) :
    ((setPath ops points cornerRadius cornerSplit upOpt close).headD PathPoint.new).dist = 0 ∧
    List.Chain' (fun a b : PathPoint K => a.dist ≤ b.dist)
      (setPath ops points cornerRadius cornerSplit upOpt close) ∧
    distanceOf (setPath ops points cornerRadius cornerSplit upOpt close) =
      (if setPath ops points cornerRadius cornerSplit upOpt close = [] then 0
       else ((setPath ops points cornerRadius cornerSplit upOpt close).getLastD
         PathPoint.new).dist) ∧
    (close = false → ¬(0 < cornerRadius ∧ 0 < cornerSplit) →
      distanceOf (setPath ops points cornerRadius cornerSplit upOpt close) =
        pairwiseDist ops points) := by
  have hdistOf : ∀ st : List (PathPoint K),
      distanceOf st = if st = [] then 0 else (st.getLastD PathPoint.new).dist := by
    intro st
    cases st with
    | nil => rfl
    | cons a t => simp [distanceOf, lastD]
  have hmain : ∀ (cl : Bool),
      setPath ops points cornerRadius cornerSplit upOpt cl = [] ∨
      (((setPath ops points cornerRadius cornerSplit upOpt cl).headD PathPoint.new).dist = 0 ∧
       List.Chain' (fun a b : PathPoint K => a.dist ≤ b.dist)
         (setPath ops points cornerRadius cornerSplit upOpt cl)) := by
    intro cl
    by_cases hlen : points.length < 2
    · left; simp [setPath, hlen]
    · right
      simp only [setPath, hlen, if_false]
      set pts : List (Vec3 K) :=
        if cl && !(Vec3.equalsV (points.headD Vec3.zero) (points.getLastD Vec3.zero)) then
          points ++ [points.headD Vec3.zero]
        else points with hpts
      match hm : pts with
      | [] => exact ⟨rfl, List.chain'_nil⟩
      | [p] => exact ⟨rfl, List.chain'_nil⟩
      | p0 :: p1 :: rem =>
        have hstart : (startPoint ops p0 p1 upOpt).dist = 0 := rfl
        obtain ⟨g1, g2, g3, g4⟩ :=
          buildRest_dist_inv ops hsq cornerRadius cornerSplit upOpt cl p1 rem p1
            [startPoint ops p0 p1 upOpt] (by simp)
            (List.chain'_singleton _) (by simp [hstart]) (by simp [hstart])
        exact ⟨g4, g2⟩
  refine ⟨?_, ?_, hdistOf _, ?_⟩
  · rcases hmain close with h | h
    · simp [h, PathPoint.new]
    · exact h.1
  · rcases hmain close with h | h
    · simp [h]
    · exact h.2
  · intro hcl hznd
    subst hcl
    by_cases hlen : points.length < 2
    · rw [hdistOf]
      simp only [setPath, hlen, if_true]
      match points, hlen with
      | [], _ => simp [pairwiseDist]
      | [p], _ => simp [pairwiseDist]
    · simp only [setPath, hlen, if_false, Bool.false_and]
      simp only [Bool.false_eq_true, if_false]
      match hm : points with
      | [] => simp at hlen
      | [p] => simp at hlen
      | p0 :: p1 :: rem =>
        rw [hdistOf]
        have hne := (buildRest_dist_inv ops hsq cornerRadius cornerSplit upOpt false p1 rem p1
          [startPoint ops p0 p1 upOpt] (by simp) (List.chain'_singleton _)
          (by simp [show (startPoint ops p0 p1 upOpt).dist = 0 from rfl])
          (by simp [show (startPoint ops p0 p1 upOpt).dist = 0 from rfl])).1
        rw [if_neg hne]
        have := buildRest_dist_sum ops cornerRadius cornerSplit upOpt p1 hznd rem p1
          [startPoint ops p0 p1 upOpt]
        have hlastD : ∀ l : List (PathPoint K), l ≠ [] →
            (l.getLastD PathPoint.new) = lastD l := fun l _ => rfl
        rw [hlastD _ hne, this]
        have h1 : (lastD [startPoint ops p0 p1 upOpt]).dist = 0 := rfl
        have h2 : (lastD [startPoint ops p0 p1 upOpt]).pos = p0 := rfl
        rw [h1, h2, pairwiseDist_cons]
        ring

/-- C7 witness: the 3-4-5 segment over `ℚ` with rounding disabled. -/
theorem c7_witness :
    (∀ x : ℚ, 0 ≤ ratOps.sqrt x) ∧
    distanceOf (setPath ratOps [⟨0, 0, 0⟩, ⟨3, 4, 0⟩] 0 10 none false) =
      pairwiseDist ratOps [⟨0, 0, 0⟩, ⟨3, 4, 0⟩] ∧
    distanceOf (setPath ratOps [⟨0, 0, 0⟩, ⟨3, 4, 0⟩] 0 10 none false) = 5 :=
  ⟨ratSqrt_nonneg,
    (c7_distance_properties ratOps ratSqrt_nonneg [⟨0, 0, 0⟩, ⟨3, 4, 0⟩] 0 10 none
      false).2.2.2 rfl (by decide),
    by decide⟩

/-- Applying `_sharpCorner` steps only appends samples. -/
theorem applySteps_head :
    ∀ (ops : ScalarOps K) (upOpt : Option (Vec3 K)) (steps : List (SharpStep K))
      (st : List (PathPoint K)), ∃ tail, applySteps ops upOpt st steps = st ++ tail := by
  intro ops upOpt steps
  induction steps with
  | nil => intro st; exact ⟨[], by simp [applySteps]⟩
  | cons s rest ih =>
    intro st
    obtain ⟨tail, htail⟩ := ih (applyStep ops upOpt st s)
    refine ⟨[sharpCornerPoint ops (lastD st) s.1 s.2.1 upOpt s.2.2.1 s.2.2.2] ++ tail, ?_⟩
    simpa [applySteps, applyStep] using htail

/-- With `close = true`, the loop ends in a `closeFix` of a state extending
its input. -/
theorem buildRest_close_shape (ops : ScalarOps K) (cornerRadius : K)
    (cornerSplit : ℕ) (upOpt : Option (Vec3 K)) (secondPt : Vec3 K) :
    ∀ (rem : List (Vec3 K)) (cur : Vec3 K) (st : List (PathPoint K)), st ≠ [] →
      ∃ big : List (PathPoint K), big ≠ [] ∧
        (∃ tail, big = st ++ tail) ∧
        buildRest ops cornerRadius cornerSplit upOpt true secondPt rem cur st =
          closeFix big := by
  intro rem
  induction rem with
  | nil =>
    intro cur st hstne
    obtain ⟨tail, htail⟩ := applySteps_head ops upOpt
      (cornerSteps ops cornerRadius cornerSplit (lastD st).pos
        (decide (st.length = 1)) cur secondPt) st
    refine ⟨_, ?_, ⟨tail, htail⟩, rfl⟩
    rw [htail]
    intro hc
    exact hstne (List.append_eq_nil.mp hc).1
  | cons nxt rem' ih =>
    intro cur st hstne
    obtain ⟨tail0, htail0⟩ := applySteps_head ops upOpt
      (cornerSteps ops cornerRadius cornerSplit (lastD st).pos
        (decide (st.length = 1)) cur nxt) st
    have hcane : cornerAppend ops cornerRadius cornerSplit upOpt st cur nxt ≠ [] := by
      unfold cornerAppend
      rw [htail0]
      intro hc
      exact hstne (List.append_eq_nil.mp hc).1
    obtain ⟨big, hb1, ⟨tail1, htail1⟩, hb3⟩ := ih nxt
      (cornerAppend ops cornerRadius cornerSplit upOpt st cur nxt) hcane
    refine ⟨big, hb1, ⟨tail0 ++ tail1, ?_⟩, hb3⟩
    rw [htail1]
    unfold cornerAppend
    rw [htail0, List.append_assoc]

/-- `closeFix` copies the final frame's `pos`, `dir`, `up`, `right` onto the
stored first sample while preserving the first sample's `dist`. -/
theorem closeFix_seam (big : List (PathPoint K)) (hne : big ≠ []) :
    closeFix big ≠ [] ∧
    ((closeFix big).headD PathPoint.new).pos = ((closeFix big).getLastD PathPoint.new).pos ∧
    ((closeFix big).headD PathPoint.new).dir = ((closeFix big).getLastD PathPoint.new).dir ∧
    ((closeFix big).headD PathPoint.new).up = ((closeFix big).getLastD PathPoint.new).up ∧
    ((closeFix big).headD PathPoint.new).right = ((closeFix big).getLastD PathPoint.new).right ∧
    ((closeFix big).headD PathPoint.new).dist = (big.headD PathPoint.new).dist := by
  cases big with
  | nil => exact absurd rfl hne
  | cons p0 rest =>
    cases rest with
    | nil =>
      refine ⟨by simp [closeFix], ?_, ?_, ?_, ?_, ?_⟩ <;>
        simp [closeFix, PathPoint.copyFrom, lastD]
    | cons b r =>
      have hlast : ((closeFix (p0 :: b :: r)).getLastD PathPoint.new) =
          lastD (p0 :: b :: r) := by
        simp only [closeFix]
        rw [getLastD_cons_of_ne _ (b :: r) (by simp) PathPoint.new]
        unfold lastD
        rw [getLastD_cons_of_ne p0 (b :: r) (by simp) PathPoint.new]
      exact ⟨by simp [closeFix], by rw [hlast]; rfl, by rw [hlast]; rfl,
        by rw [hlast]; rfl, by rw [hlast]; rfl, rfl⟩

/-- `setPath` on a well-formed input reduces to the loop over the (possibly
auto-closed) point list. -/
theorem setPath_eq_buildRest (ops : ScalarOps K) (points : List (Vec3 K))
    (cornerRadius : K) (cornerSplit : ℕ) (upOpt : Option (Vec3 K)) (close : Bool)
    (h : ¬ points.length < 2) (p0 p1 : Vec3 K) (rem : List (Vec3 K))
    (hm : (if close && !(Vec3.equalsV (points.headD Vec3.zero) (points.getLastD Vec3.zero))
        then points ++ [points.headD Vec3.zero] else points) = p0 :: p1 :: rem) :
    setPath ops points cornerRadius cornerSplit upOpt close =
      buildRest ops cornerRadius cornerSplit upOpt close p1 rem p1
        [startPoint ops p0 p1 upOpt] := by
  simp only [setPath, h, if_false]
  rw [hm]

/-- C8: for every closed path built from at least two points, the first
stored sample's `pos`, `dir`, `up` and `right` equal those of the last stored
sample, while the first sample's `dist` remains 0. -/
theorem c8_closed_seam (ops : ScalarOps K) (points : List (Vec3 K))
    (cornerRadius : K) (cornerSplit : ℕ) (upOpt : Option (Vec3 K))
    (h2 : 2 ≤ points.length) :
    setPath ops points cornerRadius cornerSplit upOpt true ≠ [] ∧
    ((setPath ops points cornerRadius cornerSplit upOpt true).headD PathPoint.new).pos =
      ((setPath ops points cornerRadius cornerSplit upOpt true).getLastD PathPoint.new).pos ∧
    ((setPath ops points cornerRadius cornerSplit upOpt true).headD PathPoint.new).dir =
      ((setPath ops points cornerRadius cornerSplit upOpt true).getLastD PathPoint.new).dir ∧
    ((setPath ops points cornerRadius cornerSplit upOpt true).headD PathPoint.new).up =
      ((setPath ops points cornerRadius cornerSplit upOpt true).getLastD PathPoint.new).up ∧
    ((setPath ops points cornerRadius cornerSplit upOpt true).headD PathPoint.new).right =
      ((setPath ops points cornerRadius cornerSplit upOpt true).getLastD PathPoint.new).right ∧
    ((setPath ops points cornerRadius cornerSplit upOpt true).headD PathPoint.new).dist = 0 := by
  have hlen : ¬ points.length < 2 := by omega
  have hplen : 2 ≤ (if true && !(Vec3.equalsV (points.headD Vec3.zero)
      (points.getLastD Vec3.zero)) then points ++ [points.headD Vec3.zero]
      else points).length := by
    split
    · simp only [List.length_append, List.length_cons, List.length_nil]
      omega
    · omega
  obtain ⟨p0, p1, rem, hm⟩ : ∃ p0 p1 rem,
      (if true && !(Vec3.equalsV (points.headD Vec3.zero) (points.getLastD Vec3.zero))
        then points ++ [points.headD Vec3.zero] else points) = p0 :: p1 :: rem := by
    cases hx : (if true && !(Vec3.equalsV (points.headD Vec3.zero)
        (points.getLastD Vec3.zero)) then points ++ [points.headD Vec3.zero]
        else points) with
    | nil => rw [hx] at hplen; simp at hplen
    | cons a t =>
      cases t with
      | nil => rw [hx] at hplen; simp at hplen
      | cons b r => exact ⟨a, b, r, rfl⟩
  rw [setPath_eq_buildRest ops points cornerRadius cornerSplit upOpt true hlen p0 p1 rem hm]
  obtain ⟨big, hbne, ⟨tail, htail⟩, heq⟩ :=
    buildRest_close_shape ops cornerRadius cornerSplit upOpt p1 rem p1
      [startPoint ops p0 p1 upOpt] (by simp)
  rw [heq]
  obtain ⟨s1, s2, s3, s4, s5, s6⟩ := closeFix_seam big hbne
  refine ⟨s1, s2, s3, s4, s5, ?_⟩
  rw [s6, htail]
  rfl

/-- C8 witness: a closed two-point path over `ℚ`. -/
theorem c8_witness :
    (2 ≤ ([⟨0, 0, 0⟩, ⟨1, 0, 0⟩] : List (Vec3 ℚ)).length) ∧
    ((setPath ratOps [⟨0, 0, 0⟩, ⟨1, 0, 0⟩] (1 / 10) 4 none true).headD PathPoint.new).pos =
      ((setPath ratOps [⟨0, 0, 0⟩, ⟨1, 0, 0⟩] (1 / 10) 4 none true).getLastD
        PathPoint.new).pos ∧
    ((setPath ratOps [⟨0, 0, 0⟩, ⟨1, 0, 0⟩] (1 / 10) 4 none true).headD PathPoint.new).dist
      = 0 :=
  ⟨by decide,
    (c8_closed_seam ratOps [⟨0, 0, 0⟩, ⟨1, 0, 0⟩] (1 / 10) 4 none (by decide)).2.1,
    (c8_closed_seam ratOps [⟨0, 0, 0⟩, ⟨1, 0, 0⟩] (1 / 10) 4 none (by decide)).2.2.2.2.2⟩

/-! ## Claim C4: orthonormality of the produced frames

The algebraic core: exact vector identities, the behaviour of `normalize`
under the square-root laws, and the fact that the transcribed
`makeRotationAxis` matrix preserves dot products and maps the previous
tangent to the new one. -/

attribute [ext] Vec3

/-- The cross product is orthogonal to its first factor. -/
theorem dot_cross_left (u v : Vec3 K) : Vec3.dot (Vec3.crossVectors u v) u = 0 := by
  simp only [Vec3.dot, Vec3.crossVectors]
  ring

/-- The cross product is orthogonal to its second factor. -/
theorem dot_cross_right (u v : Vec3 K) : Vec3.dot (Vec3.crossVectors u v) v = 0 := by
  simp only [Vec3.dot, Vec3.crossVectors]
  ring

/-- Lagrange's identity. -/
theorem lengthSq_cross (u v : Vec3 K) :
    (Vec3.crossVectors u v).lengthSq =
      u.lengthSq * v.lengthSq - (Vec3.dot u v) ^ 2 := by
  simp only [Vec3.lengthSq, Vec3.dot, Vec3.crossVectors]
  ring

/-- `lengthSq` as a self dot product. -/
theorem lengthSq_eq_dot (v : Vec3 K) : v.lengthSq = Vec3.dot v v := rfl

/-- `lengthSq` is nonnegative. -/
theorem lengthSq_nonneg (v : Vec3 K) : 0 ≤ v.lengthSq := by
  simp only [Vec3.lengthSq]
  have hx := mul_self_nonneg v.x
  have hy := mul_self_nonneg v.y
  have hz := mul_self_nonneg v.z
  linarith

/-- A vector with zero `lengthSq` is zero. -/
theorem lengthSq_eq_zero_iff (v : Vec3 K) : v.lengthSq = 0 ↔ v = Vec3.zero := by
  constructor
  · intro h
    simp only [Vec3.lengthSq] at h
    have hx : v.x = 0 := by nlinarith [sq_nonneg v.x, sq_nonneg v.y, sq_nonneg v.z]
    have hy : v.y = 0 := by nlinarith [sq_nonneg v.x, sq_nonneg v.y, sq_nonneg v.z]
    have hz : v.z = 0 := by nlinarith [sq_nonneg v.x, sq_nonneg v.y, sq_nonneg v.z]
    ext <;> simp [Vec3.zero, hx, hy, hz]
  · intro h
    subst h
    simp [Vec3.lengthSq, Vec3.zero]

/-- Dot with a scaled left argument. -/
theorem dot_smul_left (u v : Vec3 K) (s : K) :
    Vec3.dot (u.multiplyScalar s) v = s * Vec3.dot u v := by
  simp only [Vec3.dot, Vec3.multiplyScalar]
  ring

/-- Dot with a scaled right argument. -/
theorem dot_smul_right (u v : Vec3 K) (s : K) :
    Vec3.dot u (v.multiplyScalar s) = s * Vec3.dot u v := by
  simp only [Vec3.dot, Vec3.multiplyScalar]
  ring

/-- Dot-product commutativity. -/
theorem dot_comm (u v : Vec3 K) : Vec3.dot u v = Vec3.dot v u := by
  simp only [Vec3.dot]
  ring

/-- Under the square-root laws, `sqrt 0 = 0`. -/
theorem lawful_sqrt_zero {ops : ScalarOps K} (hl : LawfulScalarOps ops) :
    ops.sqrt 0 = 0 := by
  have := hl.sq_sqrt 0 (le_refl 0)
  exact pow_eq_zero_iff (n := 2) (by norm_num) |>.mp this

/-- Under the square-root laws, the square root of a square of a nonnegative
value is that value. -/
theorem lawful_sqrt_sq {ops : ScalarOps K} (hl : LawfulScalarOps ops)
    (y : K) (hy : 0 ≤ y) : ops.sqrt (y ^ 2) = y := by
  have h1 := hl.sq_sqrt (y ^ 2) (by positivity)
  have h2 := hl.sqrt_nonneg (y ^ 2)
  exact (pow_left_inj h2 hy (by norm_num : (2 : ℕ) ≠ 0)).mp h1

/-- A vector's `length` vanishes exactly when the vector does. -/
theorem length_eq_zero_iff {ops : ScalarOps K} (hl : LawfulScalarOps ops) (v : Vec3 K) :
    v.length ops = 0 ↔ v = Vec3.zero := by
  rw [Vec3.length, hl.sqrt_eq_zero _ (lengthSq_nonneg v), lengthSq_eq_zero_iff]

/-- The square of a vector's `length` is its `lengthSq`. -/
theorem sq_length {ops : ScalarOps K} (hl : LawfulScalarOps ops) (v : Vec3 K) :
    (v.length ops) ^ 2 = v.lengthSq :=
  hl.sq_sqrt _ (lengthSq_nonneg v)

/-- For a nonzero vector, `normalize` scales by the reciprocal length. -/
theorem normalize_eq_smul {ops : ScalarOps K} (hl : LawfulScalarOps ops)
    (v : Vec3 K) (h : v ≠ Vec3.zero) :
    v.normalize ops = v.multiplyScalar (1 / v.length ops) := by
  have hlen : v.length ops ≠ 0 := fun hc => h ((length_eq_zero_iff hl v).mp hc)
  simp [Vec3.normalize, Vec3.divideScalar, hlen]

/-- A normalized nonzero vector is a unit vector. -/
theorem dot_normalize_self {ops : ScalarOps K} (hl : LawfulScalarOps ops)
    (v : Vec3 K) (h : v ≠ Vec3.zero) :
    Vec3.dot (v.normalize ops) (v.normalize ops) = 1 := by
  have hlen : v.length ops ≠ 0 := fun hc => h ((length_eq_zero_iff hl v).mp hc)
  rw [normalize_eq_smul hl v h, dot_smul_left, dot_smul_right, ← lengthSq_eq_dot,
    ← sq_length hl v]
  field_simp
  ring

/-- Dot of a normalized vector against anything, unscaled. -/
theorem dot_normalize_left {ops : ScalarOps K} (hl : LawfulScalarOps ops)
    (v w : Vec3 K) (h : v ≠ Vec3.zero) :
    Vec3.dot (v.normalize ops) w = (1 / v.length ops) * Vec3.dot v w := by
  rw [normalize_eq_smul hl v h, dot_smul_left]

/-- Two unit vectors with vanishing cross product are collinear. -/
theorem eq_smul_of_cross_eq_zero (u v : Vec3 K)
    (hu : Vec3.dot u u = 1) (hv : Vec3.dot v v = 1)
    (hc : Vec3.crossVectors u v = Vec3.zero) :
    v = u.multiplyScalar (Vec3.dot u v) := by
  have h0 : (Vec3.crossVectors u v).lengthSq = 0 := by rw [hc]; simp [Vec3.lengthSq, Vec3.zero]
  rw [lengthSq_cross, lengthSq_eq_dot, lengthSq_eq_dot, hu, hv] at h0
  have hsub : (Vec3.subV v (u.multiplyScalar (Vec3.dot u v))).lengthSq = 0 := by
    simp only [Vec3.lengthSq, Vec3.subV, Vec3.multiplyScalar, Vec3.dot] at h0 ⊢
    simp only [Vec3.dot] at hu hv
    nlinarith [h0, hu, hv]
  have := (lengthSq_eq_zero_iff _).mp hsub
  have hx := congrArg Vec3.x this
  have hy := congrArg Vec3.y this
  have hz := congrArg Vec3.z this
  simp only [Vec3.subV, Vec3.zero, Vec3.multiplyScalar] at hx hy hz
  ext <;> simp only [Vec3.multiplyScalar] <;> linarith

/-- The transcribed `makeRotationAxis` matrix preserves dot products for a
unit axis and `cos² + sin² = 1`. -/
theorem rotApplyCS_dot (a : Vec3 K) (c s : K) (u v : Vec3 K)
    (ha : Vec3.dot a a = 1) (hcs : c ^ 2 + s ^ 2 = 1) :
    Vec3.dot (Vec3.rotApplyCS a c s u) (Vec3.rotApplyCS a c s v) = Vec3.dot u v := by
  simp only [Vec3.rotApplyCS, Vec3.dot] at ha ⊢
  linear_combination
    ((u.x * v.x + u.y * v.y + u.z * v.z) -
        (a.x * u.x + a.y * u.y + a.z * u.z) * (a.x * v.x + a.y * v.y + a.z * v.z)) * hcs +
      (s ^ 2 * (u.x * v.x + u.y * v.y + u.z * v.z) +
        (1 - c) ^ 2 * (a.x * u.x + a.y * u.y + a.z * u.z) *
          (a.x * v.x + a.y * v.y + a.z * v.z)) * ha

/-- The transcribed rotation about an axis collinear with `u × v`, by the
angle with cosine `u · v` and sine `L` (where `L · axis = u × v`), maps the
unit vector `u` to `v`. -/
theorem rotApplyCS_maps (n u v : Vec3 K) (L : K)
    (hu : Vec3.dot u u = 1)
    (hn : n.multiplyScalar L = Vec3.crossVectors u v)
    (hnu : Vec3.dot n u = 0) :
    Vec3.rotApplyCS n (Vec3.dot u v) L u = v := by
  have hnx := congrArg Vec3.x hn
  have hny := congrArg Vec3.y hn
  have hnz := congrArg Vec3.z hn
  simp only [Vec3.multiplyScalar, Vec3.crossVectors] at hnx hny hnz
  simp only [Vec3.dot] at hu hnu
  ext
  · simp only [Vec3.rotApplyCS, Vec3.dot]
    linear_combination u.z * hny - u.y * hnz + v.x * hu +
      ((1 - (u.x * v.x + u.y * v.y + u.z * v.z)) * n.x) * hnu
  · simp only [Vec3.rotApplyCS, Vec3.dot]
    linear_combination u.x * hnz - u.z * hnx + v.y * hu +
      ((1 - (u.x * v.x + u.y * v.y + u.z * v.z)) * n.y) * hnu
  · simp only [Vec3.rotApplyCS, Vec3.dot]
    linear_combination u.y * hnx - u.x * hny + v.z * hu +
      ((1 - (u.x * v.x + u.y * v.y + u.z * v.z)) * n.z) * hnu

/-- Clamping a value already within `[-1, 1]` leaves it unchanged. -/
theorem clamp_eq_self (c : K) (h1 : -1 ≤ c) (h2 : c ≤ 1) :
    min (max c (-1)) 1 = c := by
  rw [max_eq_left h1, min_eq_left h2]

/-- Soundness of the rotation-minimizing up-transport: starting from unit
tangents and a unit up perpendicular to the previous tangent, a non-marginal
transport produces a unit up perpendicular to the new tangent. -/
theorem transportUp_props {ops : ScalarOps K} (hl : LawfulScalarOps ops)
    (prevDir newDir up : Vec3 K)
    (hpd : Vec3.dot prevDir prevDir = 1) (hnd : Vec3.dot newDir newDir = 1)
    (hup : Vec3.dot up up = 1) (hperp : Vec3.dot up prevDir = 0)
    (hok : transportOk ops prevDir newDir) :
    Vec3.dot (transportUp ops prevDir newDir up) (transportUp ops prevDir newDir up) = 1 ∧
    Vec3.dot (transportUp ops prevDir newDir up) newDir = 0 := by
  rcases hok with hzero | hguard
  · have hglen : (Vec3.crossVectors prevDir newDir).length ops = 0 := by
      rw [hzero, Vec3.length]
      simpa [Vec3.lengthSq, Vec3.zero] using lawful_sqrt_zero hl
    have hgfalse : ¬ ops.epsilon < (Vec3.crossVectors prevDir newDir).length ops := by
      rw [hglen]
      exact not_lt_of_ge (le_of_lt hl.epsilon_pos)
    rw [transportUp, if_neg hgfalse]
    refine ⟨hup, ?_⟩
    have hcol := eq_smul_of_cross_eq_zero prevDir newDir hpd hnd hzero
    rw [hcol, dot_smul_right, hperp]
    ring
  · rw [transportUp, if_pos hguard]
    set c0 : K := Vec3.dot prevDir newDir with hc0
    set crossv : Vec3 K := Vec3.crossVectors prevDir newDir with hcrossv
    set L : K := crossv.length ops with hLdef
    have hLpos : 0 < L := lt_trans hl.epsilon_pos hguard
    have hLne : L ≠ 0 := ne_of_gt hLpos
    have hcne : crossv ≠ Vec3.zero := by
      intro hzr
      apply hLne
      rw [hLdef, hzr, Vec3.length]
      simpa [Vec3.lengthSq, Vec3.zero] using lawful_sqrt_zero hl
    have hL2 : L ^ 2 = crossv.lengthSq := sq_length hl crossv
    have hLsq : crossv.lengthSq = 1 - c0 ^ 2 := by
      rw [hcrossv, lengthSq_cross, lengthSq_eq_dot, lengthSq_eq_dot, hpd, hnd]
      rw [hc0]
      ring
    have hc0sq : c0 ^ 2 ≤ 1 := by
      have := lengthSq_nonneg crossv
      rw [hLsq] at this
      linarith
    have hc0b : -1 ≤ c0 ∧ c0 ≤ 1 := by
      constructor <;> nlinarith [hc0sq]
    have hclamp : min (max c0 (-1)) 1 = c0 := clamp_eq_self c0 hc0b.1 hc0b.2
    have hcos : ops.cos (ops.arccos (min (max c0 (-1)) 1)) = c0 := by
      rw [hclamp]
      exact hl.cos_arccos c0 hc0b.1 hc0b.2
    have hsin : ops.sin (ops.arccos (min (max c0 (-1)) 1)) = L := by
      rw [hclamp, hl.sin_arccos c0 hc0b.1 hc0b.2]
      rw [← hLsq, ← hL2]
      exact lawful_sqrt_sq hl L (le_of_lt hLpos)
    have haxis : crossv.normalize ops = crossv.multiplyScalar (1 / L) := by
      rw [normalize_eq_smul hl crossv hcne, hLdef]
    have haunit : Vec3.dot (crossv.multiplyScalar (1 / L)) (crossv.multiplyScalar (1 / L)) = 1 := by
      rw [dot_smul_left, dot_smul_right, ← lengthSq_eq_dot, ← hL2]
      field_simp
      ring
    have hmaps : Vec3.rotApplyCS (crossv.multiplyScalar (1 / L)) c0 L prevDir = newDir := by
      refine rotApplyCS_maps (crossv.multiplyScalar (1 / L)) prevDir newDir L hpd ?_ ?_
      · ext <;> simp only [Vec3.multiplyScalar] <;> field_simp
      · rw [dot_smul_left, hcrossv, dot_cross_left]
        ring
    have hcs : c0 ^ 2 + L ^ 2 = 1 := by
      rw [hL2, hLsq]
      ring
    simp only [Vec3.applyRotationAxis]
    rw [haxis, hcos, hsin]
    constructor
    · rw [rotApplyCS_dot _ _ _ _ _ haunit hcs, hup]
    · calc Vec3.dot (Vec3.rotApplyCS (crossv.multiplyScalar (1 / L)) c0 L up) newDir
          = Vec3.dot (Vec3.rotApplyCS (crossv.multiplyScalar (1 / L)) c0 L up)
              (Vec3.rotApplyCS (crossv.multiplyScalar (1 / L)) c0 L prevDir) := by
            rw [hmaps]
        _ = Vec3.dot up prevDir := rotApplyCS_dot _ _ _ _ _ haunit hcs
        _ = 0 := hperp

/-- Two exactly orthonormal vectors have a nonzero cross product. -/
theorem cross_ne_zero_of_ortho (a b : Vec3 K)
    (ha : Vec3.dot a a = 1) (hb : Vec3.dot b b = 1) (hab : Vec3.dot a b = 0) :
    Vec3.crossVectors a b ≠ Vec3.zero := by
  intro h
  have h0 : (Vec3.crossVectors a b).lengthSq = 0 := by
    rw [h]; simp [Vec3.lengthSq, Vec3.zero]
  rw [lengthSq_cross, lengthSq_eq_dot, lengthSq_eq_dot, ha, hb, hab] at h0
  norm_num at h0

/-- The normalized cross product of two vectors with nonzero cross product is
a unit vector orthogonal to both. -/
theorem normalize_cross_props {ops : ScalarOps K} (hl : LawfulScalarOps ops)
    (a b : Vec3 K) (h : Vec3.crossVectors a b ≠ Vec3.zero) :
    Vec3.dot ((Vec3.crossVectors a b).normalize ops) ((Vec3.crossVectors a b).normalize ops) = 1 ∧
    Vec3.dot ((Vec3.crossVectors a b).normalize ops) a = 0 ∧
    Vec3.dot ((Vec3.crossVectors a b).normalize ops) b = 0 := by
  refine ⟨dot_normalize_self hl _ h, ?_, ?_⟩
  · rw [dot_normalize_left hl _ _ h, dot_cross_left]
    ring
  · rw [dot_normalize_left hl _ _ h, dot_cross_right]
    ring

/-- A zero left factor has a zero cross product. -/
theorem crossVectors_zero_left (b : Vec3 K) :
    Vec3.crossVectors Vec3.zero b = Vec3.zero := by
  ext <;> simp [Vec3.crossVectors, Vec3.zero]

/-- The `_start` frame construction: from a nonzero tangent and an up
candidate not parallel to it, the computed `dir`, `up`, `right` are exactly
orthonormal. -/
theorem startFrame_ortho {ops : ScalarOps K} (hl : LawfulScalarOps ops)
    (d u0 : Vec3 K) (hcr : Vec3.crossVectors d u0 ≠ Vec3.zero) :
    Vec3.dot (d.normalize ops) (d.normalize ops) = 1 ∧
    Vec3.dot ((Vec3.crossVectors ((Vec3.crossVectors d u0).normalize ops) d).normalize ops)
      ((Vec3.crossVectors ((Vec3.crossVectors d u0).normalize ops) d).normalize ops) = 1 ∧
    Vec3.dot ((Vec3.crossVectors d u0).normalize ops) ((Vec3.crossVectors d u0).normalize ops) = 1 ∧
    Vec3.dot (d.normalize ops)
      ((Vec3.crossVectors ((Vec3.crossVectors d u0).normalize ops) d).normalize ops) = 0 ∧
    Vec3.dot (d.normalize ops) ((Vec3.crossVectors d u0).normalize ops) = 0 ∧
    Vec3.dot ((Vec3.crossVectors ((Vec3.crossVectors d u0).normalize ops) d).normalize ops)
      ((Vec3.crossVectors d u0).normalize ops) = 0 := by
  have hd : d ≠ Vec3.zero := by
    intro hd0
    subst hd0
    exact hcr (crossVectors_zero_left u0)
  obtain ⟨hr1, hr2, hr3⟩ := normalize_cross_props hl d u0 hcr
  have hcr2 : Vec3.crossVectors ((Vec3.crossVectors d u0).normalize ops) d ≠ Vec3.zero := by
    intro h0
    have hls : (Vec3.crossVectors ((Vec3.crossVectors d u0).normalize ops) d).lengthSq = 0 := by
      rw [h0]; simp [Vec3.lengthSq, Vec3.zero]
    rw [lengthSq_cross, lengthSq_eq_dot, lengthSq_eq_dot, hr1, hr2] at hls
    have : d.lengthSq = 0 := by
      rw [lengthSq_eq_dot]
      nlinarith [hls]
    exact hd ((lengthSq_eq_zero_iff d).mp this)
  obtain ⟨hu1, hu2, hu3⟩ := normalize_cross_props hl _ d hcr2
  have hdn : d.length ops ≠ 0 := fun hc => hd ((length_eq_zero_iff hl d).mp hc)
  refine ⟨dot_normalize_self hl d hd, hu1, hr1, ?_, ?_, ?_⟩
  · rw [dot_normalize_left hl d _ hd]
    rw [dot_comm d _, hu3]
    ring
  · rw [dot_normalize_left hl d _ hd]
    rw [dot_comm d _, hr2]
    ring
  · exact hu2

/-- The transport-based frame construction of `_end` and of the auto-up
branch of `_sharpCorner`: from an orthonormal previous frame and a unit new
tangent with non-marginal transport, the transported `up` and derived `right`
are exactly orthonormal with the new tangent. -/
theorem transportFrame_ortho {ops : ScalarOps K} (hl : LawfulScalarOps ops)
    (prevDir prevUp dir : Vec3 K)
    (hpd : Vec3.dot prevDir prevDir = 1) (hpu : Vec3.dot prevUp prevUp = 1)
    (hperp : Vec3.dot prevUp prevDir = 0)
    (hd : Vec3.dot dir dir = 1) (hok : transportOk ops prevDir dir) :
    Vec3.dot dir dir = 1 ∧
    Vec3.dot (transportUp ops prevDir dir prevUp) (transportUp ops prevDir dir prevUp) = 1 ∧
    Vec3.dot ((Vec3.crossVectors dir (transportUp ops prevDir dir prevUp)).normalize ops)
      ((Vec3.crossVectors dir (transportUp ops prevDir dir prevUp)).normalize ops) = 1 ∧
    Vec3.dot dir (transportUp ops prevDir dir prevUp) = 0 ∧
    Vec3.dot dir ((Vec3.crossVectors dir (transportUp ops prevDir dir prevUp)).normalize ops) = 0 ∧
    Vec3.dot (transportUp ops prevDir dir prevUp)
      ((Vec3.crossVectors dir (transportUp ops prevDir dir prevUp)).normalize ops) = 0 := by
  obtain ⟨hu1, hu2⟩ := transportUp_props hl prevDir dir prevUp hpd hd hpu hperp hok
  have hdu : Vec3.dot dir (transportUp ops prevDir dir prevUp) = 0 := by
    rw [dot_comm]; exact hu2
  have hcr : Vec3.crossVectors dir (transportUp ops prevDir dir prevUp) ≠ Vec3.zero :=
    cross_ne_zero_of_ortho _ _ hd hu1 hdu
  obtain ⟨hr1, hr2, hr3⟩ := normalize_cross_props hl _ _ hcr
  exact ⟨hd, hu1, hr1, hdu, by rw [dot_comm]; exact hr2, by rw [dot_comm]; exact hr3⟩

/-- The forced-up branch of `_sharpCorner` (outside the `dot = 1` special
case): for a unit tangent and a forced up not parallel to it, the derived
`right` and re-derived `up` are exactly orthonormal with the tangent. -/
theorem forcedFrame_ortho {ops : ScalarOps K} (hl : LawfulScalarOps ops)
    (dir u : Vec3 K) (hd : Vec3.dot dir dir = 1)
    (hcr : Vec3.crossVectors dir u ≠ Vec3.zero) :
    Vec3.dot dir dir = 1 ∧
    Vec3.dot ((Vec3.crossVectors ((Vec3.crossVectors dir u).normalize ops) dir).normalize ops)
      ((Vec3.crossVectors ((Vec3.crossVectors dir u).normalize ops) dir).normalize ops) = 1 ∧
    Vec3.dot ((Vec3.crossVectors dir u).normalize ops) ((Vec3.crossVectors dir u).normalize ops) = 1 ∧
    Vec3.dot dir
      ((Vec3.crossVectors ((Vec3.crossVectors dir u).normalize ops) dir).normalize ops) = 0 ∧
    Vec3.dot dir ((Vec3.crossVectors dir u).normalize ops) = 0 ∧
    Vec3.dot ((Vec3.crossVectors ((Vec3.crossVectors dir u).normalize ops) dir).normalize ops)
      ((Vec3.crossVectors dir u).normalize ops) = 0 := by
  obtain ⟨hr1, hr2, hr3⟩ := normalize_cross_props hl dir u hcr
  have hcr2 : Vec3.crossVectors ((Vec3.crossVectors dir u).normalize ops) dir ≠ Vec3.zero :=
    cross_ne_zero_of_ortho _ _ hr1 hd hr2
  obtain ⟨hu1, hu2, hu3⟩ := normalize_cross_props hl _ dir hcr2
  refine ⟨hd, hu1, hr1, ?_, ?_, ?_⟩
  · rw [dot_comm]; exact hu3
  · rw [dot_comm]; exact hr2
  · exact hu2

/-- The auto-selected initial up axis is never parallel to a nonzero tangent
whose first absolute component is below the `min` sentinel. -/
theorem autoUp_cross_ne (maxValue : K) (d : Vec3 K) (hd : d ≠ Vec3.zero)
    (hx : |d.x| < maxValue) :
    Vec3.crossVectors d (autoUp maxValue d) ≠ Vec3.zero := by
  have hco : ∀ v : Vec3 K, Vec3.crossVectors d v = Vec3.zero →
      d.y * v.z - d.z * v.y = 0 ∧ d.z * v.x - d.x * v.z = 0 ∧ d.x * v.y - d.y * v.x = 0 := by
    intro v hv
    refine ⟨congrArg Vec3.x hv, congrArg Vec3.y hv, congrArg Vec3.z hv⟩
  intro hc
  simp only [autoUp] at hc
  rw [if_pos hx] at hc
  by_cases hy : |d.y| < |d.x|
  · rw [if_pos hy] at hc
    by_cases hz : |d.z| < |d.y|
    · rw [if_pos hz] at hc
      obtain ⟨h1, h2, h3⟩ := hco _ hc
      simp only at h1 h2 h3
      have hdx : d.x = 0 := by linarith [h2]
      have hdy : d.y = 0 := by linarith [h1]
      rw [hdx] at hy
      exact absurd hy (by simp [abs_nonneg])
    · rw [if_neg hz] at hc
      obtain ⟨h1, h2, h3⟩ := hco _ hc
      simp only at h1 h2 h3
      have hdx : d.x = 0 := by linarith [h3]
      have hdz : d.z = 0 := by linarith [h1]
      rw [hdx] at hy
      exact absurd hy (by simp [abs_nonneg])
  · rw [if_neg hy] at hc
    by_cases hz : |d.z| < |d.x|
    · rw [if_pos hz] at hc
      obtain ⟨h1, h2, h3⟩ := hco _ hc
      simp only at h1 h2 h3
      have hdx : d.x = 0 := by linarith [h2]
      rw [hdx] at hz
      simp only [abs_zero] at hz
      exact absurd hz (by simp [abs_nonneg])
    · rw [if_neg hz] at hc
      obtain ⟨h1, h2, h3⟩ := hco _ hc
      simp only at h1 h2 h3
      have hdy : d.y = 0 := by linarith [h3]
      have hdz : d.z = 0 := by linarith [h2]
      have hdx : d.x ≠ 0 := by
        intro h0
        exact hd (by ext <;> simp [Vec3.zero, h0, hdy, hdz])
      rw [hdy] at hy
      exact hy (by simpa using abs_pos.mpr hdx)

/-- `_start` produces an exactly orthonormal frame under its non-degeneracy
conditions. -/
theorem startPoint_ortho {ops : ScalarOps K} (hl : LawfulScalarOps ops)
    (current next : Vec3 K) (upOpt : Option (Vec3 K))
    (hok : startOk ops current next upOpt) :
    OrthoFrame (startPoint ops current next upOpt) := by
  cases upOpt with
  | none =>
    simp only [startOk] at hok
    obtain ⟨hd0, hx⟩ := hok
    have hcr := autoUp_cross_ne ops.maxValue (Vec3.subV next current) hd0 hx
    obtain ⟨a1, a2, a3, a4, a5, a6⟩ := startFrame_ortho hl _ _ hcr
    exact ⟨a1, a2, a3, a4, a5, a6⟩
  | some u =>
    simp only [startOk] at hok
    obtain ⟨a1, a2, a3, a4, a5, a6⟩ := startFrame_ortho hl _ u hok
    exact ⟨a1, a2, a3, a4, a5, a6⟩

/-- `_sharpCorner` produces an exactly orthonormal frame from an orthonormal
previous frame under its non-degeneracy conditions. -/
theorem sharpCornerPoint_ortho {ops : ScalarOps K} (hl : LawfulScalarOps ops)
    (lastPoint : PathPoint K) (current next : Vec3 K) (upOpt : Option (Vec3 K))
    (dirType : ℕ) (sharp : Bool) (ho : OrthoFrame lastPoint)
    (hok : sharpOk ops lastPoint current next upOpt dirType) :
    OrthoFrame (sharpCornerPoint ops lastPoint current next upOpt dirType sharp) := by
  simp only [sharpOk] at hok
  obtain ⟨hfirst, hsecond⟩ := hok
  have hd : Vec3.dot
      (if dirType = 1 then (Vec3.subV current lastPoint.pos).normalize ops
       else if dirType = 2 then (Vec3.subV next current).normalize ops
       else (Vec3.addV ((Vec3.subV current lastPoint.pos).normalize ops)
         ((Vec3.subV next current).normalize ops)).normalize ops)
      (if dirType = 1 then (Vec3.subV current lastPoint.pos).normalize ops
       else if dirType = 2 then (Vec3.subV next current).normalize ops
       else (Vec3.addV ((Vec3.subV current lastPoint.pos).normalize ops)
         ((Vec3.subV next current).normalize ops)).normalize ops) = 1 := by
    split_ifs at hfirst ⊢ with h1 h2
    · exact dot_normalize_self hl _ hfirst
    · exact dot_normalize_self hl _ hfirst
    · exact dot_normalize_self hl _ hfirst.2.2
  cases upOpt with
  | some u =>
    obtain ⟨hne1, hcr⟩ := hsecond
    obtain ⟨a1, a2, a3, a4, a5, a6⟩ := forcedFrame_ortho hl _ u hd hcr
    refine ⟨?_, ?_, ?_, ?_, ?_, ?_⟩ <;>
      simp only [sharpCornerPoint, if_neg hne1] <;> assumption
  | none =>
    obtain ⟨b1, b2, b3, b4, b5, b6⟩ :=
      transportFrame_ortho hl lastPoint.dir lastPoint.up _ ho.1 ho.2.1
        (by rw [dot_comm]; exact ho.2.2.2.1) hd hsecond
    refine ⟨?_, ?_, ?_, ?_, ?_, ?_⟩ <;>
      simp only [sharpCornerPoint] <;> assumption

/-- `_end` produces an exactly orthonormal frame from an orthonormal previous
frame under its non-degeneracy conditions. -/
theorem endPoint_ortho {ops : ScalarOps K} (hl : LawfulScalarOps ops)
    (lastPoint : PathPoint K) (current : Vec3 K) (ho : OrthoFrame lastPoint)
    (hok : endOk ops lastPoint current) :
    OrthoFrame (endPoint ops lastPoint current) := by
  simp only [endOk] at hok
  obtain ⟨hd0, htr⟩ := hok
  have hd : Vec3.dot ((Vec3.subV current lastPoint.pos).normalize ops)
      ((Vec3.subV current lastPoint.pos).normalize ops) = 1 :=
    dot_normalize_self hl _ hd0
  obtain ⟨b1, b2, b3, b4, b5, b6⟩ :=
    transportFrame_ortho hl lastPoint.dir lastPoint.up _ ho.1 ho.2.1
      (by rw [dot_comm]; exact ho.2.2.2.1) hd htr
  exact ⟨b1, b2, b3, b4, b5, b6⟩

/-- A chain of `_sharpCorner` appends never empties the builder state. -/
theorem applySteps_ne_nil (ops : ScalarOps K) (upOpt : Option (Vec3 K))
    (steps : List (SharpStep K)) (st : List (PathPoint K)) (hne : st ≠ []) :
    applySteps ops upOpt st steps ≠ [] := by
  obtain ⟨tail, ht⟩ := applySteps_head ops upOpt steps st
  rw [ht]
  intro h0
  rw [List.append_eq_nil] at h0
  exact hne h0.1

/-- The closed-path fixup preserves pointwise orthonormality: the overwritten
first sample receives the last sample's frame fields. -/
theorem closeFix_ortho :
    ∀ (st : List (PathPoint K)), (∀ p ∈ st, OrthoFrame p) →
      ∀ p ∈ closeFix st, OrthoFrame p := by
  intro st h p hp
  match st, hp with
  | p0 :: rest, hp =>
    simp only [closeFix, List.mem_cons] at hp
    rcases hp with hp | hp
    · subst hp
      have hl := h (lastD (p0 :: rest)) (lastD_mem _ (by simp))
      exact ⟨hl.1, hl.2.1, hl.2.2.1, hl.2.2.2.1, hl.2.2.2.2.1, hl.2.2.2.2.2⟩
    · exact h p (List.mem_cons_of_mem _ hp)

/-- A chain of non-degenerate `_sharpCorner` appends preserves pointwise
orthonormality. -/
theorem applySteps_ortho {ops : ScalarOps K} (hl : LawfulScalarOps ops)
    (upOpt : Option (Vec3 K)) :
    ∀ (steps : List (SharpStep K)) (st : List (PathPoint K)), st ≠ [] →
      (∀ p ∈ st, OrthoFrame p) → stepsOk ops upOpt st steps →
      ∀ p ∈ applySteps ops upOpt st steps, OrthoFrame p := by
  intro steps
  induction steps with
  | nil =>
    intro st hne h _
    simpa [applySteps] using h
  | cons s rest ih =>
    intro st hne h hok
    simp only [stepsOk] at hok
    have hnew : OrthoFrame (sharpCornerPoint ops (lastD st) s.1 s.2.1 upOpt s.2.2.1 s.2.2.2) :=
      sharpCornerPoint_ortho hl _ _ _ _ _ _ (h _ (lastD_mem st hne)) hok.1
    have hall : ∀ p ∈ applyStep ops upOpt st s, OrthoFrame p := by
      intro p hp
      simp only [applyStep, List.mem_append, List.mem_singleton] at hp
      rcases hp with hp | hp
      · exact h p hp
      · subst hp; exact hnew
    have hne' : applyStep ops upOpt st s ≠ [] := by
      simp [applyStep]
    simp only [applySteps, List.foldl_cons]
    exact ih (applyStep ops upOpt st s) hne' hall hok.2

/-- The `set` loop preserves pointwise orthonormality under its
non-degeneracy conditions. -/
theorem buildRest_ortho {ops : ScalarOps K} (hl : LawfulScalarOps ops)
    (cornerRadius : K) (cornerSplit : ℕ) (upOpt : Option (Vec3 K)) (close : Bool)
    (secondPt : Vec3 K) :
    ∀ (rem : List (Vec3 K)) (cur : Vec3 K) (st : List (PathPoint K)), st ≠ [] →
      (∀ p ∈ st, OrthoFrame p) →
      buildRestOk ops cornerRadius cornerSplit upOpt close secondPt rem cur st →
      ∀ p ∈ buildRest ops cornerRadius cornerSplit upOpt close secondPt rem cur st,
        OrthoFrame p := by
  intro rem
  induction rem with
  | nil =>
    intro cur st hne h hok
    simp only [buildRestOk] at hok
    simp only [buildRest]
    cases close with
    | true =>
      rw [if_pos rfl]
      rw [if_pos rfl] at hok
      exact closeFix_ortho _ (applySteps_ortho hl upOpt _ st hne h hok)
    | false =>
      rw [if_neg (by simp)]
      rw [if_neg (by simp)] at hok
      intro p hp
      simp only [List.mem_append, List.mem_singleton] at hp
      rcases hp with hp | hp
      · exact h p hp
      · subst hp
        exact endPoint_ortho hl _ _ (h _ (lastD_mem st hne)) hok
  | cons nxt rem ih =>
    intro cur st hne h hok
    simp only [buildRestOk] at hok
    simp only [buildRest]
    exact ih nxt (cornerAppend ops cornerRadius cornerSplit upOpt st cur nxt)
      (applySteps_ne_nil ops upOpt _ st hne)
      (applySteps_ortho hl upOpt _ st hne h hok.1) hok.2

/-- C4 (amended): with non-degenerate inputs every sample produced by `set`
carries an exactly orthonormal `dir`/`up`/`right` frame. -/
theorem c4_orthonormal_frames (ops : ScalarOps K) (hl : LawfulScalarOps ops)
    (points : List (Vec3 K)) (cornerRadius : K) (cornerSplit : ℕ)
    (upOpt : Option (Vec3 K)) (close : Bool)
    (hok : setPathOk ops points cornerRadius cornerSplit upOpt close) :
    ∀ p ∈ setPath ops points cornerRadius cornerSplit upOpt close, OrthoFrame p := by
  by_cases hlen : points.length < 2
  · simp [setPath, hlen]
  · obtain ⟨p0, p1, rem, hm⟩ : ∃ p0 p1 rem,
        (if close && !(Vec3.equalsV (points.headD Vec3.zero) (points.getLastD Vec3.zero))
          then points ++ [points.headD Vec3.zero] else points) = p0 :: p1 :: rem := by
      cases hx : (if close && !(Vec3.equalsV (points.headD Vec3.zero)
          (points.getLastD Vec3.zero)) then points ++ [points.headD Vec3.zero]
          else points) with
      | nil =>
        exfalso
        have : points = [] := by
          by_cases hc : (close && !(Vec3.equalsV (points.headD Vec3.zero)
              (points.getLastD Vec3.zero))) = true
          · rw [if_pos hc] at hx
            rcases List.append_eq_nil.mp hx with ⟨h1, _⟩
            exact h1
          · rw [if_neg hc] at hx
            exact hx
        rw [this] at hlen
        simp at hlen
      | cons a t =>
        cases t with
        | nil =>
          exfalso
          have hlen2 : (if close && !(Vec3.equalsV (points.headD Vec3.zero)
              (points.getLastD Vec3.zero)) then points ++ [points.headD Vec3.zero]
              else points).length = 1 := by rw [hx]; rfl
          by_cases hc : (close && !(Vec3.equalsV (points.headD Vec3.zero)
              (points.getLastD Vec3.zero))) = true
          · rw [if_pos hc] at hlen2
            simp only [List.length_append, List.length_cons, List.length_nil] at hlen2
            omega
          · rw [if_neg hc] at hlen2
            omega
        | cons b t2 =>
          exact ⟨a, b, t2, rfl⟩
    rw [setPath_eq_buildRest ops points cornerRadius cornerSplit upOpt close hlen p0 p1 rem hm]
    simp only [setPathOk, if_neg hlen] at hok
    rw [hm] at hok
    obtain ⟨hok1, hok2⟩ := hok
    exact buildRest_ortho hl cornerRadius cornerSplit upOpt close p1 rem p1
      [startPoint ops p0 p1 upOpt] (by simp)
      (by
        intro p hp
        simp only [List.mem_singleton] at hp
        subst hp
        exact startPoint_ortho hl p0 p1 upOpt hok1)
      hok2

/-- C4 counterexample: a repeated input point gives a zero tangent, so the
first produced frame has `dir = (0,0,0)` and is not orthonormal. -/
theorem c4_degenerate_frames_counterexample :
    ¬ (∀ p ∈ setPath ratOps [(⟨0, 0, 0⟩ : Vec3 ℚ), ⟨0, 0, 0⟩] (1 / 10) 10 none false,
        OrthoFrame p) := by
  decide

/-- Witness for the amended C4 on a concrete non-degenerate two-point path
over `ℝ`. -/
theorem c4_witness :
    setPathOk realOps [(⟨0, 0, 0⟩ : Vec3 ℝ), ⟨1, 0, 0⟩] 0 10 none false ∧
    ∀ p ∈ setPath realOps [(⟨0, 0, 0⟩ : Vec3 ℝ), ⟨1, 0, 0⟩] 0 10 none false, OrthoFrame p := by
  have hok : setPathOk realOps [(⟨0, 0, 0⟩ : Vec3 ℝ), ⟨1, 0, 0⟩] 0 10 none false := by
    simp only [setPathOk]
    rw [if_neg (by norm_num)]
    simp only [Bool.false_and, Bool.false_eq_true, if_false]
    refine ⟨?_, ?_⟩
    · simp only [startOk]
      refine ⟨?_, ?_⟩
      · intro h
        have hx := congrArg Vec3.x h
        simp [Vec3.subV, Vec3.zero] at hx
      · simp only [Vec3.subV, realOps]
        norm_num
    · simp only [buildRestOk]
      rw [if_neg (by simp)]
      simp only [endOk]
      refine ⟨?_, ?_⟩
      · intro h
        have hx := congrArg Vec3.x h
        simp [Vec3.subV, Vec3.zero, lastD, startPoint] at hx
      · left
        ext <;>
          simp [lastD, startPoint, Vec3.crossVectors, Vec3.normalize, Vec3.divideScalar,
            Vec3.multiplyScalar, Vec3.subV, Vec3.zero]
  exact ⟨hok, c4_orthonormal_frames realOps realOps_lawful _ _ _ _ _ hok⟩

end ThreePath
